import Mathlib

/-
  Verification development for the SudokuDLX front-end core
  (src/src/mainwindow.cpp).

  Shallow embedding conventions:
  * A QString is modelled as a list of characters (QStr).
  * A QLineEdit cell of the UI grid is modelled by its text.
  * MainWindow.grid (QList of QList of QLineEdit pointers) is modelled as
    UIGrid, a list of rows of cell texts.
  * The primitive Grid type (QList of QList of int) is modelled as a list
    of rows of integers.
  * QList.at performs a range-checked access; an out-of-range access is
    undefined behaviour (an assertion failure in debug builds).  Functions
    that perform such accesses are modelled with Option, where none marks
    the out-of-range access.
  * QChar.digitValue returns the numeric value of a digit character and -1
    for every other character.  QString.number renders an int in decimal.
    QString.toInt parses an optional minus sign followed by decimal digits
    and returns 0 on any parse failure (overflow is ignored: integers are
    modelled as unbounded).
  * The floating point test modf(sqrt(size)) == 0 of the source decides
    whether size is a perfect square; it is modelled by the exact natural
    square root.
-/

/-- Model of QString: a list of characters. -/
abbrev QStr := List Char

/-- Model of QChar.digitValue: the value of a decimal digit character,
and -1 for a character that is not a digit (restricted to ASCII digits). -/
def qCharDigitValue (c : Char) : Int :=
  if c.isDigit then ((c.toNat - '0'.toNat : Nat) : Int) else -1

/-- Numeric value of a digit character. -/
def digitVal (c : Char) : Nat := c.toNat - '0'.toNat

/-- Decimal digits of a natural number, most significant first.  Structural
recursion on an explicit fuel so that the definition evaluates by kernel
reduction; callers pass fuel greater than the number. -/
def natDigitsAux (fuel : Nat) (n : Nat) : List Char :=
  match fuel with
  | 0 => []
  | fuel + 1 =>
    if n < 10 then [Nat.digitChar n]
    else natDigitsAux fuel (n / 10) ++ [Nat.digitChar (n % 10)]

/-- Model of QString.number on an int: decimal representation, with a
leading minus sign when negative. -/
def qStringNumber (v : Int) : QStr :=
  if v < 0 then '-' :: natDigitsAux (v.natAbs + 1) v.natAbs
  else natDigitsAux (v.toNat + 1) v.toNat

/-- Decode a nonempty all-digit character list as a natural number. -/
def decodeDigits (cs : List Char) : Option Nat :=
  if cs = [] then none
  else if cs.all Char.isDigit then
    some (cs.foldl (fun acc c => acc * 10 + digitVal c) 0)
  else none

/-- Model of QString.toInt: optional minus sign followed by decimal digits;
any other string gives 0. -/
def qStringToInt : QStr → Int
  | [] => 0
  | c :: rest =>
    if c = '-' then
      match decodeDigits rest with
      | some n => -(n : Int)
      | none => 0
    else
      match decodeDigits (c :: rest) with
      | some n => (n : Int)
      | none => 0

/-- Model of MainWindow.cellValue (mainwindow.cpp:449): the empty text is
read as -1, any other text through QString.toInt. -/
def cellValue (t : QStr) : Int :=
  if t = [] then -1 else qStringToInt t

/-- Model of MainWindow.setCellValue (mainwindow.cpp:456): values below 1
clear the cell, others are rendered in decimal. -/
def setCellValue (v : Int) : QStr :=
  if v < 1 then [] else qStringNumber v

-- Lemmas about the digit rendering.

theorem digitChar_isDigit (d : Nat) (h : d < 10) :
    (Nat.digitChar d).isDigit = true := by
  interval_cases d <;> decide

theorem digitVal_digitChar (d : Nat) (h : d < 10) :
    digitVal (Nat.digitChar d) = d := by
  interval_cases d <;> decide

theorem natDigitsAux_ne_nil (fuel n : Nat) (h : n < fuel) :
    natDigitsAux fuel n ≠ [] := by
  match fuel with
  | 0 => omega
  | fuel + 1 =>
    unfold natDigitsAux
    by_cases h10 : n < 10
    · simp [h10]
    · simp [h10]

theorem natDigitsAux_all_digit (fuel : Nat) : ∀ n, n < fuel →
    ∀ c ∈ natDigitsAux fuel n, c.isDigit = true := by
  induction fuel with
  | zero => omega
  | succ fuel ih =>
    intro n hn c hc
    unfold natDigitsAux at hc
    by_cases h10 : n < 10
    · simp [h10] at hc
      subst hc
      exact digitChar_isDigit n h10
    · simp only [if_neg h10, List.mem_append, List.mem_singleton] at hc
      rcases hc with hc | hc
      · have hdiv : n / 10 < n := Nat.div_lt_self (by omega) (by omega)
        exact ih (n / 10) (by omega) c hc
      · subst hc
        exact digitChar_isDigit (n % 10) (Nat.mod_lt n (by omega))

theorem natDigitsAux_foldl (fuel : Nat) : ∀ n acc, n < fuel →
    (natDigitsAux fuel n).foldl (fun a c => a * 10 + digitVal c) acc
      = acc * 10 ^ (natDigitsAux fuel n).length + n := by
  induction fuel with
  | zero => omega
  | succ fuel ih =>
    intro n acc hn
    unfold natDigitsAux
    by_cases h10 : n < 10
    · simp [h10, digitVal_digitChar n h10]
    · have hdiv : n / 10 < n := Nat.div_lt_self (by omega) (by omega)
      simp only [if_neg h10, List.foldl_append, List.length_append,
        List.foldl_cons, List.foldl_nil, List.length_cons, List.length_nil]
      rw [ih (n / 10) acc (by omega)]
      rw [digitVal_digitChar (n % 10) (Nat.mod_lt n (by omega))]
      have : n / 10 * 10 + n % 10 = n := by omega
      ring_nf
      omega

theorem decodeDigits_natDigitsAux (n : Nat) :
    decodeDigits (natDigitsAux (n + 1) n) = some n := by
  have hne := natDigitsAux_ne_nil (n + 1) n (by omega)
  have hall : (natDigitsAux (n + 1) n).all Char.isDigit = true := by
    rw [List.all_eq_true]
    exact natDigitsAux_all_digit (n + 1) n (by omega)
  unfold decodeDigits
  rw [if_neg hne, if_pos hall]
  rw [natDigitsAux_foldl (n + 1) n 0 (by omega)]
  simp

theorem isDigit_ne_minus (c : Char) (h : c.isDigit = true) : c ≠ '-' := by
  intro he
  subst he
  simp [Char.isDigit] at h

theorem qStringToInt_qStringNumber (v : Int) (h : 1 ≤ v) :
    qStringToInt (qStringNumber v) = v := by
  have hneg : ¬ v < 0 := by omega
  unfold qStringNumber
  rw [if_neg hneg]
  have hne := natDigitsAux_ne_nil (v.toNat + 1) v.toNat (by omega)
  have hdec := decodeDigits_natDigitsAux v.toNat
  rcases hl : natDigitsAux (v.toNat + 1) v.toNat with _ | ⟨c, rest⟩
  · exact absurd hl hne
  · have hcdig : c.isDigit = true := by
      apply natDigitsAux_all_digit (v.toNat + 1) v.toNat (by omega)
      rw [hl]; exact List.mem_cons_self c rest
    rw [hl] at hdec
    simp only [qStringToInt, if_neg (isDigit_ne_minus c hcdig), hdec]
    omega

theorem qStringNumber_ne_nil (v : Int) (h : 1 ≤ v) :
    qStringNumber v ≠ [] := by
  unfold qStringNumber
  rw [if_neg (by omega : ¬ v < 0)]
  exact natDigitsAux_ne_nil (v.toNat + 1) v.toNat (by omega)

/-- Reading back a written cell: setCellValue then cellValue is the
identity above 0 and collapses everything below 1 to the empty marker -1. -/
theorem cellValue_setCellValue (v : Int) :
    cellValue (setCellValue v) = if v < 1 then -1 else v := by
  unfold setCellValue
  by_cases h : v < 1
  · simp [h, cellValue]
  · simp only [if_neg h]
    unfold cellValue
    rw [if_neg (qStringNumber_ne_nil v (by omega))]
    exact qStringToInt_qStringNumber v (by omega)

-- Grid data model.

/-- Model of a row of the UI grid: the texts of its QLineEdit cells. -/
abbrev UIRow := List QStr

/-- Model of MainWindow.grid: rows of cell texts. -/
abbrev UIGrid := List UIRow

/-- Model of a row of the primitive int grid. -/
abbrev GridRow := List Int

/-- Model of the primitive Grid type (QList of QList of int). -/
abbrev Grid := List GridRow

/-- Text of cell (i, j); the default for an out-of-range index is only
used where the source never reads out of range. -/
def getCell (g : UIGrid) (i j : Nat) : QStr := (g.getD i []).getD j []

/-- Write the text of cell (i, j), ignoring out-of-range indices. -/
def setCellText (g : UIGrid) (i j : Nat) (t : QStr) : UIGrid :=
  g.set i ((g.getD i []).set j t)

/-- Range-checked write of cell (i, j), modelling the checked
QList.at accesses grid.at(i).at(j): none marks an out-of-range access. -/
def setAt2 (g : UIGrid) (i j : Nat) (t : QStr) : Option UIGrid :=
  if i < g.length ∧ j < (g.getD i []).length then some (setCellText g i j t)
  else none

/-- Grid g has exactly n rows of exactly n cells each. -/
def squareUI (g : UIGrid) (n : Nat) : Bool :=
  g.length == n && g.all (fun row => row.length == n)

/-- An n-by-n grid of empty cells. -/
def emptyUIGrid (n : Nat) : UIGrid :=
  List.replicate n (List.replicate n ([] : QStr))

/-- Executable integer square root: the largest r at most the scan start
with r * r at most n.  Structural recursion so that it evaluates by
kernel reduction; intSqrt_eq_sqrt identifies it with Nat.sqrt. -/
def intSqrtFrom (n : Nat) : Nat → Nat
  | 0 => 0
  | r + 1 => if (r + 1) * (r + 1) ≤ n then r + 1 else intSqrtFrom n r

/-- Executable integer square root of n. -/
def intSqrt (n : Nat) : Nat := intSqrtFrom n n

theorem intSqrtFrom_sq_le (n : Nat) : ∀ r, intSqrtFrom n r * intSqrtFrom n r ≤ n := by
  intro r
  induction r with
  | zero => simp [intSqrtFrom]
  | succ r ih =>
    unfold intSqrtFrom
    by_cases h : (r + 1) * (r + 1) ≤ n
    · rw [if_pos h]; exact h
    · rw [if_neg h]; exact ih

theorem le_intSqrtFrom (n : Nat) : ∀ r k, k ≤ r → k * k ≤ n → k ≤ intSqrtFrom n r := by
  intro r
  induction r with
  | zero => intro k hk _; omega
  | succ r ih =>
    intro k hk hkk
    unfold intSqrtFrom
    by_cases h : (r + 1) * (r + 1) ≤ n
    · rw [if_pos h]; omega
    · rw [if_neg h]
      apply ih k _ hkk
      rcases Nat.lt_or_ge k (r + 1) with h2 | h2
      · omega
      · have : k = r + 1 := by omega
        rw [this] at hkk
        exact absurd hkk h

/-- The executable square root agrees with Nat.sqrt. -/
theorem intSqrt_eq_sqrt (n : Nat) : intSqrt n = Nat.sqrt n := by
  unfold intSqrt
  apply Nat.le_antisymm
  · exact Nat.le_sqrt.mpr (intSqrtFrom_sq_le n n)
  · exact le_intSqrtFrom n n (Nat.sqrt n) (Nat.sqrt_le_self n) (Nat.sqrt_le n)

-- MainWindow.generateGrid (mainwindow.cpp:25).

/-- Run the body f on loop indices 0, 1, ..., n-1 in order. -/
def forLoop {α : Type} (n : Nat) (f : Nat → α → α) (x : α) : α :=
  match n with
  | 0 => x
  | n + 1 => f n (forLoop n f x)

/-- Append one empty cell to row idx (grid[rowIndex].append(cell)). -/
def appendCell (g : UIGrid) (idx : Nat) : UIGrid :=
  g.set idx (g.getD idx [] ++ [([] : QStr)])

/-- Inner j loop of generateGrid: append k cells to row idx. -/
def appendEmptyCells (g : UIGrid) (idx k : Nat) : UIGrid :=
  forLoop k (fun _ h => appendCell h idx) g

/-- Loop over i inside one region: row (i + si * cols) gains cols cells. -/
def regionCells (g : UIGrid) (si cols : Nat) : UIGrid :=
  forLoop cols (fun i h => appendEmptyCells h (i + si * cols) cols) g

/-- Loop over sj: the si-th band of regions, r regions wide. -/
def regionBand (g : UIGrid) (si r cols : Nat) : UIGrid :=
  forLoop r (fun _ h => regionCells h si cols) g

/-- Loop over si, starting from size freshly initialized empty rows. -/
def buildRows (size r cols : Nat) : UIGrid :=
  forLoop r (fun si h => regionBand h si r cols) (List.replicate size ([] : UIRow))

/-- Model of MainWindow.generateGrid (mainwindow.cpp:25): rejects sizes
below 4 and sizes whose square root is not an integer, then rebuilds the
UI grid region by region; regionsPerRow is the integer square root and
columnsInRegion is size divided by it. -/
def generateGrid (size : Nat) : Option UIGrid :=
  if size < 4 then none
  else if intSqrt size * intSqrt size ≠ size then none
  else some (buildRows size (intSqrt size) (size / intSqrt size))

/-- Model of MainWindow.resetGrid (mainwindow.cpp:116): clear every cell. -/
def resetGrid (g : UIGrid) : UIGrid :=
  g.map (fun row => row.map (fun _ => ([] : QStr)))

-- Converters (mainwindow.cpp:394-446).

/-- Model of MainWindow.UIGridToGrid (mainwindow.cpp:394): read every cell
through cellValue. -/
def UIGridToGrid (g : UIGrid) : Grid :=
  g.map (fun row => row.map cellValue)

/-- Inner j loop of gridToUIGrid, writing one solution row from column j on. -/
def writeRowCells : UIGrid → Nat → Nat → GridRow → Option UIGrid
  | g, _, _, [] => some g
  | g, i, j, v :: rest =>
    match setAt2 g i j (setCellValue v) with
    | none => none
    | some g2 => writeRowCells g2 i (j + 1) rest

/-- Outer i loop of gridToUIGrid, writing the solution rows from row i on. -/
def writeRows : UIGrid → Nat → Grid → Option UIGrid
  | g, _, [] => some g
  | g, i, row :: rest =>
    match writeRowCells g i 0 row with
    | none => none
    | some g2 => writeRows g2 (i + 1) rest

/-- Model of MainWindow.gridToUIGrid (mainwindow.cpp:409): reset the UI
grid, then write every cell of the solution through setCellValue; the
grid.at accesses are range checked. -/
def gridToUIGrid (g : UIGrid) (sudoku : Grid) : Option UIGrid :=
  writeRows (resetGrid g) 0 sudoku

/-- Loop of stringGridToUIGrid over the remaining characters, with the
current row index i and column index j; the write goes through the
checked accesses grid.at(i).at(j), and the column index wraps to a new
row when it reaches the row count. -/
def stringGridToUIGridAux : UIGrid → Nat → Nat → QStr → Option UIGrid
  | g, _, _, [] => some g
  | g, i, j, c :: rest =>
    match setAt2 g i j (setCellValue (qCharDigitValue c)) with
    | none => none
    | some g2 =>
      if j + 1 ≥ g2.length then stringGridToUIGridAux g2 (i + 1) 0 rest
      else stringGridToUIGridAux g2 i (j + 1) rest

/-- Model of MainWindow.stringGridToUIGrid (mainwindow.cpp:419): write the
digit value of each character into consecutive cells, row-major. -/
def stringGridToUIGrid (g : UIGrid) (s : QStr) : Option UIGrid :=
  stringGridToUIGridAux g 0 0 s

/-- Serialization of a single cell inside UIGridToStringGrid: values below
1 render as a dot, others in decimal. -/
def encodeCell (t : QStr) : QStr :=
  if cellValue t < 1 then ['.'] else qStringNumber (cellValue t)

/-- Model of MainWindow.UIGridToStringGrid (mainwindow.cpp:432): the
concatenation of the encodings of all cells, row-major. -/
def UIGridToStringGrid (g : UIGrid) : QStr :=
  g.flatMap (fun row => row.flatMap encodeCell)

-- Solver facade (mainwindow.cpp:124).

/-- Outcome of the external DLX solver object: whether dlx.solve()
returned true, the grid dlx.solution() would hand back, and the elapsed
milliseconds the high resolution clock measured for the call. -/
structure DLXOutcome where
  solved : Bool
  solution : Grid
  elapsed : Rat

/-- Model of MainWindow.solveGrid (mainwindow.cpp:124): run the solver;
only when it succeeds write the solution into the UI grid and store the
measured duration into the bench out-parameter; return the solver verdict
together with the final UI grid and bench value. -/
def solveGrid (g : UIGrid) (bench : Rat) (o : DLXOutcome) :
    Option (Bool × UIGrid × Rat) :=
  if o.solved then
    match gridToUIGrid g o.solution with
    | none => none
    | some g2 => some (true, g2, o.elapsed)
  else some (false, g, bench)

-- Test harness (mainwindow.cpp:369).

/-- Classification a test case receives in MainWindow.runTest: Passed,
Wrong (solver returned a grid that does not match the expected string) or
Failed (solver verdict itself disagreed with the expectation). -/
inductive TestOutcome where
  | passed
  | wrong
  | failed
  deriving DecidableEq

/-- Model of MainWindow.runTest (mainwindow.cpp:369): load the input
string into the UI grid, solve, and classify the outcome against the
expected string, where the sentinel none demands unsolvability and the
sentinel any accepts whatever the solver produced. -/
def runTestClassify (g : UIGrid) (input expected : QStr) (o : DLXOutcome) :
    Option TestOutcome :=
  match stringGridToUIGrid g input with
  | none => none
  | some g1 =>
    match solveGrid g1 0 o with
    | none => none
    | some (solved, g2, _bench) =>
      let noSolution : Bool := expected == "none".data
      if (solved && !noSolution) || (!solved && noSolution) then
        let result := UIGridToStringGrid g2
        if result == expected || expected == "any".data || noSolution then
          some TestOutcome.passed
        else some TestOutcome.wrong
      else some TestOutcome.failed

-- Import slot (mainwindow.cpp:485).

/-- Status the import slot reports: the grid after a successful import,
the invalid-size status message, the wrong-data status message, or an
out-of-range access inside the load (unreachable from the slot). -/
inductive ImportResult where
  | imported (g : UIGrid)
  | invalidSize
  | wrongData
  | outOfRange
  deriving DecidableEq

/-- Model of MainWindow.on_pushButtonImport_clicked (mainwindow.cpp:485):
with a confirmed nonempty text, keep the current grid when the length
matches its cell count, otherwise regenerate a grid of side sqrt(length)
when the length is a perfect square; on success load the text with
stringGridToUIGrid.  No character of the text is ever validated. -/
def importGrid (g : UIGrid) (ok : Bool) (text : QStr) : ImportResult :=
  if ok && !text.isEmpty then
    let generated : Option UIGrid :=
      if text.length ≠ g.length * g.length then
        if intSqrt text.length * intSqrt text.length = text.length then
          generateGrid (intSqrt text.length)
        else none
      else some g
    match generated with
    | some g2 =>
      match stringGridToUIGrid g2 text with
      | some g3 => ImportResult.imported g3
      | none => ImportResult.outOfRange
    | none => ImportResult.invalidSize
  else ImportResult.wrongData

-- Basic lemmas about cells and squareness.

theorem getD_set {α : Type} (l : List α) (i j : Nat) (a d : α) :
    (l.set i a).getD j d = if i = j ∧ i < l.length then a else l.getD j d := by
  rw [List.getD_eq_getElem?_getD, List.getElem?_set]
  by_cases hij : i = j
  · subst hij
    by_cases hl : i < l.length
    · simp [hl]
    · rw [if_pos rfl, if_neg hl, if_neg (by tauto)]
      rw [List.getD_eq_getElem?_getD, List.getElem?_eq_none (by omega)]
  · rw [if_neg hij, if_neg (by tauto), List.getD_eq_getElem?_getD]

theorem length_setCellText (g : UIGrid) (i j : Nat) (t : QStr) :
    (setCellText g i j t).length = g.length := by
  unfold setCellText
  exact List.length_set g i ((g.getD i []).set j t)

theorem getD_row_setCellText (g : UIGrid) (i j : Nat) (t : QStr) (i2 : Nat) :
    ((setCellText g i j t).getD i2 []).length = (g.getD i2 []).length := by
  unfold setCellText
  rw [getD_set]
  by_cases hc : i = i2 ∧ i < g.length
  · rw [if_pos hc, List.length_set, hc.1]
  · rw [if_neg hc]

theorem squareUI_iff (g : UIGrid) (n : Nat) : squareUI g n = true ↔
    g.length = n ∧ ∀ i, i < n → (g.getD i []).length = n := by
  unfold squareUI
  simp only [Bool.and_eq_true, beq_iff_eq, List.all_eq_true]
  constructor
  · rintro ⟨h1, h2⟩
    refine ⟨h1, fun i hi => ?_⟩
    have hlt : i < g.length := by omega
    rw [List.getD_eq_getElem?_getD, List.getElem?_eq_getElem hlt]
    exact h2 g[i] (List.getElem_mem hlt)
  · rintro ⟨h1, h2⟩
    refine ⟨h1, fun row hrow => ?_⟩
    rcases List.mem_iff_getElem.mp hrow with ⟨i, hlt, heq⟩
    have := h2 i (by omega)
    rw [List.getD_eq_getElem?_getD, List.getElem?_eq_getElem hlt] at this
    simp only [Option.getD_some] at this
    rw [heq] at this
    exact this

theorem squareUI_length {g : UIGrid} {n : Nat} (h : squareUI g n = true) :
    g.length = n := ((squareUI_iff g n).mp h).1

theorem squareUI_rowlen {g : UIGrid} {n : Nat} (h : squareUI g n = true)
    (i : Nat) (hi : i < n) : (g.getD i []).length = n :=
  ((squareUI_iff g n).mp h).2 i hi

theorem squareUI_setCellText {g : UIGrid} {n : Nat} (h : squareUI g n = true)
    (i j : Nat) (t : QStr) : squareUI (setCellText g i j t) n = true := by
  rw [squareUI_iff]
  rcases (squareUI_iff g n).mp h with ⟨h1, h2⟩
  refine ⟨by rw [length_setCellText]; exact h1, fun i2 hi2 => ?_⟩
  rw [getD_row_setCellText]
  exact h2 i2 hi2

theorem getCell_setCellText_same {g : UIGrid} {i j : Nat} (t : QStr)
    (hi : i < g.length) (hj : j < (g.getD i []).length) :
    getCell (setCellText g i j t) i j = t := by
  unfold getCell setCellText
  rw [getD_set, if_pos ⟨rfl, hi⟩, getD_set, if_pos ⟨rfl, hj⟩]

theorem getCell_setCellText_other {g : UIGrid} {i j i2 j2 : Nat} (t : QStr)
    (hne : i ≠ i2 ∨ j ≠ j2) :
    getCell (setCellText g i j t) i2 j2 = getCell g i2 j2 := by
  unfold getCell setCellText
  rw [getD_set]
  by_cases hi : i = i2
  · subst hi
    have hj : j ≠ j2 := by tauto
    by_cases hlen : i < g.length
    · rw [if_pos ⟨rfl, hlen⟩, getD_set, if_neg (by tauto)]
    · rw [if_neg (by tauto)]
  · rw [if_neg (by tauto)]

-- Flat-position view of the string loader: position p writes cell
-- (p / n, p % n) of an n-by-n grid.

/-- Writes of the string loader expressed on flat positions: the
character at offset k of s is written into the cell at flat position
p + k, row-major. -/
def writeFlat (n : Nat) : UIGrid → Nat → QStr → UIGrid
  | g, _, [] => g
  | g, p, c :: rest =>
    writeFlat n (setCellText g (p / n) (p % n) (setCellValue (qCharDigitValue c))) (p + 1) rest

theorem writeFlat_square {n : Nat} :
    ∀ (s : QStr) (g : UIGrid) (p : Nat), squareUI g n = true →
    squareUI (writeFlat n g p s) n = true := by
  intro s
  induction s with
  | nil => intro g p h; exact h
  | cons c rest ih =>
    intro g p h
    exact ih _ (p + 1) (squareUI_setCellText h _ _ _)

theorem flatPos_ne {n p q : Nat} (hne : q ≠ p) :
    q / n ≠ p / n ∨ q % n ≠ p % n := by
  by_contra hcon
  push_neg at hcon
  have h1 : n * (p / n) + p % n = p := Nat.div_add_mod p n
  have h2 : n * (q / n) + q % n = q := Nat.div_add_mod q n
  rw [hcon.1, hcon.2] at h2
  omega

theorem writeFlat_getCell_lt {n : Nat} :
    ∀ (s : QStr) (g : UIGrid) (p q : Nat), q < p →
    getCell (writeFlat n g p s) (q / n) (q % n) = getCell g (q / n) (q % n) := by
  intro s
  induction s with
  | nil => intro g p q _; rfl
  | cons c rest ih =>
    intro g p q hq
    unfold writeFlat
    rw [ih _ (p + 1) q (by omega)]
    exact getCell_setCellText_other _ (flatPos_ne (show p ≠ q by omega))

theorem writeFlat_getCell_ge {n : Nat} :
    ∀ (s : QStr) (g : UIGrid) (p q : Nat), p + s.length ≤ q →
    getCell (writeFlat n g p s) (q / n) (q % n) = getCell g (q / n) (q % n) := by
  intro s
  induction s with
  | nil => intro g p q _; rfl
  | cons c rest ih =>
    intro g p q hq
    simp only [List.length_cons] at hq
    unfold writeFlat
    rw [ih _ (p + 1) q (by omega)]
    exact getCell_setCellText_other _ (flatPos_ne (show p ≠ q by omega))

theorem writeFlat_getCell_in {n : Nat} (hn : 0 < n) :
    ∀ (s : QStr) (g : UIGrid) (p q : Nat), squareUI g n = true →
    p ≤ q → q < p + s.length → q < n * n →
    getCell (writeFlat n g p s) (q / n) (q % n)
      = setCellValue (qCharDigitValue (s.getD (q - p) ' ')) := by
  intro s
  induction s with
  | nil =>
    intro g p q _ h1 h2
    simp only [List.length_nil, Nat.add_zero] at h2
    omega
  | cons c rest ih =>
    intro g p q hsq h1 h2 h3
    unfold writeFlat
    by_cases hq : q = p
    · subst hq
      rw [writeFlat_getCell_lt rest _ (q + 1) q (by omega)]
      have hilt : q / n < n := Nat.div_lt_iff_lt_mul hn |>.mpr (by omega)
      have hj : q % n < n := Nat.mod_lt q hn
      rw [getCell_setCellText_same _
        (by rw [squareUI_length hsq]; exact hilt)
        (by rw [squareUI_rowlen hsq _ hilt]; exact hj)]
      simp
    · have hlt : p + 1 ≤ q := by omega
      rw [ih _ (p + 1) q (squareUI_setCellText hsq _ _ _) hlt
        (by simp only [List.length_cons] at h2; omega) h3]
      congr 1
      have heq : q - p = (q - (p + 1)) + 1 := by omega
      rw [heq]
      simp

theorem flatPos_div (i j n : Nat) (hn : 0 < n) (hj : j < n) :
    (i * n + j) / n = i ∧ (i * n + j) % n = j := by
  constructor
  · rw [Nat.mul_comm i n, Nat.mul_add_div hn, Nat.div_eq_of_lt hj, Nat.add_zero]
  · rw [Nat.mul_comm i n, Nat.mul_add_mod, Nat.mod_eq_of_lt hj]

theorem row_lt_of_flat_lt {i j n : Nat} (hj : j < n) (hp : i * n + j < n * n) :
    i < n := by
  by_contra hcon
  push_neg at hcon
  have := Nat.mul_le_mul_right n hcon
  omega

theorem writeFlat_cons (n : Nat) (g : UIGrid) (p : Nat) (c : Char) (rest : QStr) :
    writeFlat n g p (c :: rest)
      = writeFlat n (setCellText g (p / n) (p % n) (setCellValue (qCharDigitValue c))) (p + 1) rest := rfl

theorem aux_eq_writeFlat {n : Nat} (hn : 0 < n) :
    ∀ (s : QStr) (g : UIGrid) (i j : Nat), squareUI g n = true → j < n →
    i * n + j + s.length ≤ n * n →
    stringGridToUIGridAux g i j s = some (writeFlat n g (i * n + j) s) := by
  intro s
  induction s with
  | nil => intro g i j _ _ _; rfl
  | cons c rest ih =>
    intro g i j hsq hj hbound
    simp only [List.length_cons] at hbound
    have hp : i * n + j < n * n := by omega
    have hi : i < n := row_lt_of_flat_lt hj hp
    have hrange : i < g.length ∧ j < (g.getD i []).length := by
      rw [squareUI_length hsq, squareUI_rowlen hsq i hi]
      exact ⟨hi, hj⟩
    have hdm := flatPos_div i j n hn hj
    simp only [stringGridToUIGridAux, setAt2, if_pos hrange]
    have hg2sq : squareUI (setCellText g i j (setCellValue (qCharDigitValue c))) n = true :=
      squareUI_setCellText hsq _ _ _
    have hg2len : (setCellText g i j (setCellValue (qCharDigitValue c))).length = n := by
      rw [length_setCellText]; exact squareUI_length hsq
    rw [hg2len]
    have hmul : (i + 1) * n = i * n + n := by ring
    rw [writeFlat_cons, hdm.1, hdm.2]
    by_cases hwrap : j + 1 ≥ n
    · rw [if_pos hwrap]
      rw [ih _ (i + 1) 0 hg2sq hn (by omega)]
      congr 2
      omega
    · rw [if_neg hwrap]
      rw [ih _ i (j + 1) hg2sq (by omega) (by omega), Nat.add_assoc]

theorem aux_overflow {n : Nat} (hn : 0 < n) :
    ∀ (s : QStr) (g : UIGrid) (i j : Nat), squareUI g n = true → j < n →
    i * n + j ≤ n * n → n * n < i * n + j + s.length →
    stringGridToUIGridAux g i j s = none := by
  intro s
  induction s with
  | nil =>
    intro g i j _ _ hle hgt
    simp only [List.length_nil, Nat.add_zero] at hgt
    omega
  | cons c rest ih =>
    intro g i j hsq hj hle hgt
    simp only [List.length_cons] at hgt
    by_cases hp : i * n + j < n * n
    · have hi : i < n := row_lt_of_flat_lt hj hp
      have hrange : i < g.length ∧ j < (g.getD i []).length := by
        rw [squareUI_length hsq, squareUI_rowlen hsq i hi]
        exact ⟨hi, hj⟩
      simp only [stringGridToUIGridAux, setAt2, if_pos hrange]
      have hg2sq : squareUI (setCellText g i j (setCellValue (qCharDigitValue c))) n = true :=
        squareUI_setCellText hsq _ _ _
      have hg2len : (setCellText g i j (setCellValue (qCharDigitValue c))).length = n := by
        rw [length_setCellText]; exact squareUI_length hsq
      rw [hg2len]
      by_cases hwrap : j + 1 ≥ n
      · rw [if_pos hwrap]
        apply ih _ (i + 1) 0 hg2sq hn
        · have : (i + 1) * n = i * n + n := by ring
          omega
        · have : (i + 1) * n = i * n + n := by ring
          omega
      · rw [if_neg hwrap]
        apply ih _ i (j + 1) hg2sq (by omega) (by omega) (by omega)
    · have hi : n ≤ i := by
        by_contra hcon
        push_neg at hcon
        have := Nat.mul_le_mul_right n (show i + 1 ≤ n by omega)
        have h2 : (i + 1) * n = i * n + n := by ring
        omega
      have hrange : ¬ (i < g.length ∧ j < (g.getD i []).length) := by
        rw [squareUI_length hsq]
        omega
      simp only [stringGridToUIGridAux, setAt2, if_neg hrange]

/-- Loading a string no longer than the cell count succeeds and equals the
flat-position write sequence. -/
theorem stringGridToUIGrid_eq_writeFlat {n : Nat} (hn : 0 < n) (g : UIGrid)
    (s : QStr) (hsq : squareUI g n = true) (hlen : s.length ≤ n * n) :
    stringGridToUIGrid g s = some (writeFlat n g 0 s) := by
  have := aux_eq_writeFlat hn s g 0 0 hsq hn (by simpa using hlen)
  simpa [stringGridToUIGrid] using this

/-- Loading a string longer than the cell count runs off the end of the
grid: the access grid.at(i) with i equal to the row count fails. -/
theorem stringGridToUIGrid_none {n : Nat} (hn : 0 < n) (g : UIGrid)
    (s : QStr) (hsq : squareUI g n = true) (hlen : n * n < s.length) :
    stringGridToUIGrid g s = none := by
  have := aux_overflow hn s g 0 0 hsq hn (by omega) (by simpa using hlen)
  simpa [stringGridToUIGrid] using this

-- Valid UI grids: every cell text is empty or the decimal rendering of a
-- value in 1..n, the only texts produced by setCellValue.

/-- Cell text reachable through setCellValue for an n-by-n grid: empty or
the decimal rendering of a value in 1..n. -/
def validCellText (n : Nat) (t : QStr) : Bool :=
  t == [] || (List.range n).any (fun k => t == qStringNumber ((k + 1 : Nat) : Int))

/-- Valid UI grid of side n: square with valid cell texts. -/
def validUIGrid (n : Nat) (g : UIGrid) : Bool :=
  squareUI g n && g.all (fun row => row.all (validCellText n))

/-- All cell values of the grid are at most 9 (single-character encodings). -/
def smallValues (g : UIGrid) : Bool :=
  g.all (fun row => row.all (fun t => cellValue t ≤ 9))

theorem validCellText_iff (n : Nat) (t : QStr) : validCellText n t = true ↔
    t = [] ∨ ∃ v : Nat, 1 ≤ v ∧ v ≤ n ∧ t = qStringNumber (v : Int) := by
  unfold validCellText
  simp only [Bool.or_eq_true, beq_iff_eq, List.any_eq_true, List.mem_range]
  constructor
  · rintro (h | ⟨k, hk, ht⟩)
    · exact Or.inl h
    · exact Or.inr ⟨k + 1, by omega, by omega, by push_cast; exact ht⟩
  · rintro (h | ⟨v, hv1, hv2, ht⟩)
    · exact Or.inl h
    · refine Or.inr ⟨v - 1, by omega, ?_⟩
      have : v - 1 + 1 = v := by omega
      rw [this]
      exact_mod_cast ht

theorem cellValue_qStringNumber (v : Nat) (h : 1  ≤ v) :
    cellValue (qStringNumber (v : Int)) = (v : Int) := by
  unfold cellValue
  rw [if_neg (qStringNumber_ne_nil (v : Int) (by exact_mod_cast h))]
  exact qStringToInt_qStringNumber (v : Int) (by exact_mod_cast h)

theorem cellValue_of_valid {n : Nat} {t : QStr} (h : validCellText n t = true) :
    (t = [] ∧ cellValue t = -1) ∨
    (1 ≤ cellValue t ∧ cellValue t ≤ (n : Int) ∧ t ≠ []) := by
  rcases (validCellText_iff n t).mp h with ht | ⟨v, hv1, hv2, ht⟩
  · subst ht
    exact Or.inl ⟨rfl, rfl⟩
  · subst ht
    rw [cellValue_qStringNumber v hv1]
    refine Or.inr ⟨by exact_mod_cast hv1, by exact_mod_cast hv2, ?_⟩
    exact qStringNumber_ne_nil _ (by exact_mod_cast hv1)

theorem qStringNumber_single (m : Nat) (h2 : m < 10) :
    qStringNumber (m : Int) = [Nat.digitChar m] := by
  unfold qStringNumber
  rw [if_neg (by omega : ¬ ((m : Int) < 0))]
  have htn : ((m : Int)).toNat = m := Int.toNat_natCast m
  rw [htn]
  unfold natDigitsAux
  rw [if_pos h2]

theorem qCharDigitValue_digitChar (m : Nat) (h : m < 10) :
    qCharDigitValue (Nat.digitChar m) = (m : Int) := by
  interval_cases m <;> decide

/-- Single-character round trip for a valid cell with value at most 9:
the cell encodes to one character whose digit value reproduces the cell. -/
theorem decode_encode_cell {n : Nat} {t : QStr} (hv : validCellText n t = true)
    (h9 : cellValue t ≤ 9) :
    ∃ c, encodeCell t = [c] ∧ setCellValue (qCharDigitValue c) = t := by
  rcases (validCellText_iff n t).mp hv with ht | ⟨v, hv1, hv2, ht⟩
  · subst ht
    exact ⟨'.', by decide, by decide⟩
  · subst ht
    have hcv := cellValue_qStringNumber v hv1
    have hv9 : v < 10 := by
      rw [hcv] at h9
      exact_mod_cast by omega
    refine ⟨Nat.digitChar v, ?_, ?_⟩
    · unfold encodeCell
      rw [hcv, if_neg (by exact_mod_cast by omega : ¬ ((v : Int) < 1))]
      exact qStringNumber_single v hv9
    · rw [qCharDigitValue_digitChar v hv9]
      unfold setCellValue
      rw [if_neg (by exact_mod_cast by omega : ¬ ((v : Int) < 1))]

/-- Valid numeral cells encode to themselves; empty cells encode to a dot. -/
theorem encodeCell_eq_self {n : Nat} {t : QStr} (hv : validCellText n t = true)
    (hne : t ≠ []) : encodeCell t = t := by
  rcases (validCellText_iff n t).mp hv with ht | ⟨v, hv1, _, ht⟩
  · exact absurd ht hne
  · subst ht
    unfold encodeCell
    rw [cellValue_qStringNumber v hv1]
    rw [if_neg (by exact_mod_cast by omega : ¬ ((v : Int) < 1))]

theorem getD_mem {α : Type} (l : List α) (i : Nat) (d : α) (h : i < l.length) :
    l.getD i d ∈ l := by
  rw [List.getD_eq_getElem?_getD, List.getElem?_eq_getElem h]
  exact List.getElem_mem h

theorem getCell_mem {g : UIGrid} {n i j : Nat} (hsq : squareUI g n = true)
    (hi : i < n) (hj : j < n) :
    ∃ row ∈ g, getCell g i j ∈ row := by
  have hlen := squareUI_length hsq
  have hrow := squareUI_rowlen hsq i hi
  have hil : i < g.length := by omega
  have hjl : j < (g.getD i []).length := by omega
  exact ⟨g.getD i [], getD_mem g i [] hil, getD_mem (g.getD i []) j [] hjl⟩

theorem validCellText_getCell {n : Nat} {g : UIGrid} (hv : validUIGrid n g = true)
    {i j : Nat} (hi : i < n) (hj : j < n) :
    validCellText n (getCell g i j) = true := by
  unfold validUIGrid at hv
  simp only [Bool.and_eq_true, List.all_eq_true] at hv
  rcases getCell_mem hv.1 hi hj with ⟨row, hrow, hcell⟩
  exact hv.2 row hrow _ hcell

theorem smallValues_getCell {n : Nat} {g : UIGrid} (hsq : squareUI g n = true)
    (hs : smallValues g = true) {i j : Nat} (hi : i < n) (hj : j < n) :
    cellValue (getCell g i j) ≤ 9 := by
  unfold smallValues at hs
  simp only [List.all_eq_true, decide_eq_true_eq] at hs
  rcases getCell_mem hsq hi hj with ⟨row, hrow, hcell⟩
  exact hs row hrow _ hcell

-- Structure of the serialized string.

/-- Single character a cell encodes to (meaningful when the encoding has
exactly one character). -/
def cellChar (t : QStr) : Char := (encodeCell t).getD 0 ' '

theorem getD_append {α : Type} (l1 l2 : List α) (q : Nat) (d : α) :
    (l1 ++ l2).getD q d = if q < l1.length then l1.getD q d else l2.getD (q - l1.length) d := by
  by_cases h : q < l1.length
  · rw [if_pos h, List.getD_eq_getElem?_getD, List.getElem?_append_left h,
      List.getD_eq_getElem?_getD]
  · rw [if_neg h, List.getD_eq_getElem?_getD,
      List.getElem?_append_right (by omega), List.getD_eq_getElem?_getD]

theorem getD_map {α β : Type} (f : α → β) (l : List α) (q : Nat) (d : β) (d2 : α)
    (h : q < l.length) : (l.map f).getD q d = f (l.getD q d2) := by
  rw [List.getD_eq_getElem?_getD, List.getElem?_map,
    List.getElem?_eq_getElem h]
  rw [List.getD_eq_getElem?_getD, List.getElem?_eq_getElem h]
  rfl

theorem flatMap_encode_eq_map (row : UIRow)
    (h : ∀ t ∈ row, ∃ c, encodeCell t = [c]) :
    row.flatMap encodeCell = row.map cellChar := by
  induction row with
  | nil => rfl
  | cons t ts ih =>
    rcases h t (List.mem_cons_self t ts) with ⟨c, hc⟩
    rw [List.flatMap_cons, List.map_cons, hc,
      ih (fun u hu => h u (List.mem_cons_of_mem t hu))]
    unfold cellChar
    rw [hc]
    rfl

theorem serialize_eq_map (g : UIGrid)
    (h : ∀ row ∈ g, ∀ t ∈ row, ∃ c, encodeCell t = [c]) :
    UIGridToStringGrid g = (g.flatMap (fun r => r)).map cellChar := by
  induction g with
  | nil => rfl
  | cons row rest ih =>
    unfold UIGridToStringGrid at ih ⊢
    rw [List.flatMap_cons, List.flatMap_cons, List.map_append,
      flatMap_encode_eq_map row (h row (List.mem_cons_self row rest)),
      ih (fun r hr => h r (List.mem_cons_of_mem row hr))]

theorem flatten_length (g : UIGrid) (n : Nat)
    (h : ∀ row ∈ g, row.length = n) :
    (g.flatMap (fun r => r)).length = g.length * n := by
  induction g with
  | nil => simp
  | cons row rest ih =>
    rw [List.flatMap_cons, List.length_append,
      h row (List.mem_cons_self row rest),
      ih (fun r hr => h r (List.mem_cons_of_mem row hr))]
    simp only [List.length_cons]
    ring

theorem flatten_getD (g : UIGrid) (n : Nat) (hn : 0 < n) :
    ∀ q, (∀ row ∈ g, row.length = n) → q < g.length * n →
    (g.flatMap (fun r => r)).getD q [] = getCell g (q / n) (q % n) := by
  induction g with
  | nil => intro q _ hq; simp at hq
  | cons row rest ih =>
    intro q hrows hq
    have hrl : row.length = n := hrows row (List.mem_cons_self row rest)
    rw [List.flatMap_cons, getD_append, hrl]
    by_cases hcase : q < n
    · rw [if_pos hcase]
      unfold getCell
      rw [Nat.div_eq_of_lt hcase, Nat.mod_eq_of_lt hcase]
      rfl
    · rw [if_neg hcase]
      have hsplit : q = (q - n) + n := by omega
      have hdiv : q / n = (q - n) / n + 1 := by
        conv_lhs => rw [hsplit]
        rw [Nat.add_div_right _ hn]
      have hmod : q % n = (q - n) % n := by
        conv_lhs => rw [hsplit]
        rw [Nat.add_mod_right]
      rw [hdiv, hmod]
      have hq2 : q - n < rest.length * n := by
        simp only [List.length_cons] at hq
        have : (rest.length + 1) * n = rest.length * n + n := by ring
        omega
      rw [ih (q - n) (fun r hr => hrows r (List.mem_cons_of_mem row hr)) hq2]
      unfold getCell
      rw [List.getD_cons_succ]

/-- Rows of a square grid indexed with getElem have length n. -/
theorem squareUI_getElem_len {g : UIGrid} {n : Nat} (h : squareUI g n = true)
    {i : Nat} (hl : i < g.length) : g[i].length = n := by
  have hi : i < n := by rw [squareUI_length h] at hl; exact hl
  have := squareUI_rowlen h i hi
  rw [List.getD_eq_getElem?_getD, List.getElem?_eq_getElem hl] at this
  simpa using this

/-- Two square grids of the same side agreeing on every cell are equal. -/
theorem grid_ext {n : Nat} (hn : 0 < n) (g h : UIGrid)
    (hg : squareUI g n = true) (hh : squareUI h n = true)
    (hc : ∀ q, q < n * n → getCell g (q / n) (q % n) = getCell h (q / n) (q % n)) :
    g = h := by
  have hcell : ∀ i j, i < n → j < n → getCell g i j = getCell h i j := by
    intro i j hi hj
    have hq : i * n + j < n * n := by
      have := Nat.mul_le_mul_right n (show i + 1 ≤ n by omega)
      have h2 : (i + 1) * n = i * n + n := by ring
      omega
    have := hc (i * n + j) hq
    rcases flatPos_div i j n hn hj with ⟨hd, hm⟩
    rw [hd, hm] at this
    exact this
  apply List.ext_getElem (by rw [squareUI_length hg, squareUI_length hh])
  intro i h1 h2
  have hi : i < n := by rw [squareUI_length hg] at h1; exact h1
  apply List.ext_getElem (by rw [squareUI_getElem_len hg h1, squareUI_getElem_len hh h2])
  intro j hj1 hj2
  have hj : j < n := by rw [squareUI_getElem_len hg h1] at hj1; exact hj1
  have := hcell i j hi hj
  unfold getCell at this
  rw [List.getD_eq_getElem?_getD g, List.getElem?_eq_getElem h1] at this
  rw [List.getD_eq_getElem?_getD h, List.getElem?_eq_getElem h2] at this
  simp only [Option.getD_some] at this
  rw [List.getD_eq_getElem?_getD, List.getElem?_eq_getElem hj1] at this
  rw [List.getD_eq_getElem?_getD, List.getElem?_eq_getElem hj2] at this
  simp only [Option.getD_some] at this
  exact this

theorem validUIGrid_square {n : Nat} {g : UIGrid} (h : validUIGrid n g = true) :
    squareUI g n = true := by
  unfold validUIGrid at h
  simp only [Bool.and_eq_true] at h
  exact h.1

theorem validUIGrid_cells {n : Nat} {g : UIGrid} (h : validUIGrid n g = true) :
    ∀ row ∈ g, ∀ t ∈ row, validCellText n t = true := by
  unfold validUIGrid at h
  simp only [Bool.and_eq_true, List.all_eq_true] at h
  exact h.2

theorem squareUI_rows {n : Nat} {g : UIGrid} (h : squareUI g n = true) :
    ∀ row ∈ g, row.length = n := by
  unfold squareUI at h
  simp only [Bool.and_eq_true, List.all_eq_true, beq_iff_eq] at h
  exact h.2

/-- Round trip for grids whose values all fit in one character: loading
the serialized string into any grid of the same side reproduces the
serialized grid exactly. -/
theorem roundtrip_small {n : Nat} (hn : 0 < n) (g h : UIGrid)
    (hv : validUIGrid n g = true) (hs : smallValues g = true)
    (hsqh : squareUI h n = true) :
    stringGridToUIGrid h (UIGridToStringGrid g) = some g := by
  have hsqg : squareUI g n = true := validUIGrid_square hv
  have hrows : ∀ row ∈ g, row.length = n := squareUI_rows hsqg
  have hsmall : ∀ row ∈ g, ∀ t ∈ row, cellValue t ≤ 9 := by
    unfold smallValues at hs
    simp only [List.all_eq_true, decide_eq_true_eq] at hs
    exact hs
  have hsingle : ∀ row ∈ g, ∀ t ∈ row, ∃ c, encodeCell t = [c] := by
    intro row hrow t ht
    rcases decode_encode_cell (validUIGrid_cells hv row hrow t ht)
      (hsmall row hrow t ht) with ⟨c, hc, _⟩
    exact ⟨c, hc⟩
  have hser : UIGridToStringGrid g = (g.flatMap (fun r => r)).map cellChar :=
    serialize_eq_map g hsingle
  have hflatlen : (g.flatMap (fun r => r)).length = n * n := by
    rw [flatten_length g n hrows, squareUI_length hsqg]
  have hlen : (UIGridToStringGrid g).length = n * n := by
    rw [hser, List.length_map, hflatlen]
  rw [stringGridToUIGrid_eq_writeFlat hn h _ hsqh (le_of_eq hlen)]
  congr 1
  apply grid_ext hn _ g (writeFlat_square _ h 0 hsqh) hsqg
  intro q hq
  rw [writeFlat_getCell_in hn _ h 0 q hsqh (Nat.zero_le q) (by omega) hq]
  have hqn : q / n < n := Nat.div_lt_iff_lt_mul hn |>.mpr (by omega)
  have hqm : q % n < n := Nat.mod_lt q hn
  have hglen : g.length = n := squareUI_length hsqg
  have hqf : q < (g.flatMap (fun r => r)).length := by
    rw [hflatlen]; exact hq
  have hqg : q < g.length * n := by rw [hglen]; exact hq
  have hchar : (UIGridToStringGrid g).getD (q - 0) ' '
      = cellChar (getCell g (q / n) (q % n)) := by
    rw [Nat.sub_zero, hser, getD_map cellChar _ q ' ' [] hqf,
      flatten_getD g n hn q hrows hqg]
  rw [hchar]
  rcases getCell_mem hsqg hqn hqm with ⟨row, hrow, hcell⟩
  rcases decode_encode_cell (validUIGrid_cells hv row hrow _ hcell)
    (hsmall row hrow _ hcell) with ⟨c, hc, hrt⟩
  unfold cellChar
  rw [hc]
  exact hrt

theorem encode_empty_row (k : Nat) :
    (List.replicate k ([] : QStr)).flatMap encodeCell = List.replicate k '.' := by
  induction k with
  | zero => rfl
  | succ k ih =>
    rw [List.replicate_succ, List.replicate_succ, List.flatMap_cons, ih]
    rfl

/-- Empty cells render as dots: the empty grid serializes to all dots. -/
theorem serialize_emptyUIGrid (n : Nat) :
    UIGridToStringGrid (emptyUIGrid n) = List.replicate (n * n) '.' := by
  unfold UIGridToStringGrid emptyUIGrid
  have haux : ∀ m, (List.replicate m (List.replicate n ([] : QStr))).flatMap
      (fun row => row.flatMap encodeCell) = List.replicate (m * n) '.' := by
    intro m
    induction m with
    | zero => simp
    | succ m ih =>
      rw [List.replicate_succ, List.flatMap_cons, ih, encode_empty_row]
      rw [← List.replicate_add]
      congr 1
      ring
  exact haux n

-- Two-character encodings for values 10..99.

theorem qStringNumber_two (m : Nat) (h1 : 10 ≤ m) (h2 : m ≤ 99) :
    qStringNumber (m : Int) = [Nat.digitChar (m / 10), Nat.digitChar (m % 10)] := by
  unfold qStringNumber
  rw [if_neg (by omega : ¬ ((m : Int) < 0)), Int.toNat_natCast]
  unfold natDigitsAux
  rw [if_neg (by omega : ¬ m < 10)]
  match m, h1 with
  | k + 1, _ =>
    unfold natDigitsAux
    rw [if_pos (by omega : (k + 1) / 10 < 10)]
    rfl

/-- Length of the encoding of a valid cell for sides below 100: one
character for empty or values up to 9, two characters for 10..99. -/
theorem encodeCell_length {n : Nat} (hn : n ≤ 99) {t : QStr}
    (hv : validCellText n t = true) :
    (encodeCell t).length = if 10 ≤ cellValue t then 2 else 1 := by
  rcases (validCellText_iff n t).mp hv with ht | ⟨v, hv1, hv2, ht⟩
  · subst ht
    decide
  · subst ht
    have hcv := cellValue_qStringNumber v hv1
    unfold encodeCell
    rw [hcv, if_neg (by exact_mod_cast by omega : ¬ ((v : Int) < 1))]
    by_cases hbig : 10 ≤ v
    · rw [if_pos (by exact_mod_cast hbig), qStringNumber_two v hbig (by omega)]
      rfl
    · rw [if_neg (by exact_mod_cast hbig), qStringNumber_single v (by omega)]
      rfl

theorem serialize_decomp (g : UIGrid) :
    UIGridToStringGrid g = (g.flatMap (fun r => r)).flatMap encodeCell := by
  induction g with
  | nil => rfl
  | cons row rest ih =>
    unfold UIGridToStringGrid at ih ⊢
    rw [List.flatMap_cons, List.flatMap_cons, List.flatMap_append, ih]

/-- Number of cells holding a value of 10 or more. -/
def countBigCells (g : UIGrid) : Nat :=
  (g.flatMap (fun r => r)).countP (fun t => decide (10 ≤ cellValue t))

theorem flatMap_encode_length (cells : List QStr)
    (h : ∀ t ∈ cells, (encodeCell t).length = if 10 ≤ cellValue t then 2 else 1) :
    (cells.flatMap encodeCell).length
      = cells.length + cells.countP (fun t => decide (10 ≤ cellValue t)) := by
  induction cells with
  | nil => rfl
  | cons t ts ih =>
    rw [List.flatMap_cons, List.length_append,
      h t (List.mem_cons_self t ts),
      ih (fun u hu => h u (List.mem_cons_of_mem t hu)),
      List.countP_cons]
    by_cases hbig : 10 ≤ cellValue t
    · rw [if_pos hbig, if_pos (by simpa using hbig)]
      simp only [List.length_cons]
      omega
    · rw [if_neg hbig, if_neg (by simpa using hbig)]
      simp only [List.length_cons]
      omega

/-- Serialized length of a valid grid of side at most 99: one character
per cell plus one extra character per cell holding 10 or more. -/
theorem serialize_length {n : Nat} (hn : n ≤ 99) (g : UIGrid)
    (hv : validUIGrid n g = true) :
    (UIGridToStringGrid g).length = n * n + countBigCells g := by
  have hsqg := validUIGrid_square hv
  have hrows := squareUI_rows hsqg
  have hcells : ∀ t ∈ g.flatMap (fun r => r),
      (encodeCell t).length = if 10 ≤ cellValue t then 2 else 1 := by
    intro t ht
    rw [List.mem_flatMap] at ht
    rcases ht with ⟨row, hrow, htr⟩
    exact encodeCell_length hn (validUIGrid_cells hv row hrow t htr)
  rw [serialize_decomp, flatMap_encode_length _ hcells,
    flatten_length g n hrows, squareUI_length hsqg]
  rfl

-- The region-by-region construction of generateGrid yields the empty
-- size-by-size grid.

theorem getD_replicate_nil (k i : Nat) :
    (List.replicate k ([] : UIRow)).getD i [] = [] := by
  by_cases h : i < k
  · rw [List.getD_eq_getElem?_getD, List.getElem?_eq_getElem (by simpa using h)]
    simp [List.getElem_replicate]
  · rw [List.getD_eq_getElem?_getD, List.getElem?_eq_none (by simpa using h)]
    rfl

theorem appendCell_length (g : UIGrid) (idx : Nat) :
    (appendCell g idx).length = g.length := List.length_set g idx _

theorem appendCell_getD (g : UIGrid) (idx idx2 : Nat) :
    (appendCell g idx).getD idx2 []
      = if idx = idx2 ∧ idx < g.length then g.getD idx2 [] ++ [([] : QStr)]
        else g.getD idx2 [] := by
  unfold appendCell
  rw [getD_set]
  by_cases h : idx = idx2 ∧ idx < g.length
  · rw [if_pos h, if_pos h, h.1]
  · rw [if_neg h, if_neg h]

theorem appendEmptyCells_length (k : Nat) : ∀ (g : UIGrid) (idx : Nat),
    (appendEmptyCells g idx k).length = g.length := by
  induction k with
  | zero => intro g idx; rfl
  | succ k ih =>
    intro g idx
    show (appendCell (appendEmptyCells g idx k) idx).length = g.length
    rw [appendCell_length, ih]

theorem appendEmptyCells_getD (k : Nat) : ∀ (g : UIGrid) (idx idx2 : Nat),
    (appendEmptyCells g idx k).getD idx2 []
      = if idx = idx2 ∧ idx < g.length
        then g.getD idx2 [] ++ List.replicate k ([] : QStr)
        else g.getD idx2 [] := by
  induction k with
  | zero =>
    intro g idx idx2
    show List.getD g idx2 [] = _
    by_cases h : idx = idx2 ∧ idx < g.length
    · rw [if_pos h]; simp
    · rw [if_neg h]
  | succ k ih =>
    intro g idx idx2
    show (appendCell (appendEmptyCells g idx k) idx).getD idx2 [] = _
    rw [appendCell_getD, appendEmptyCells_length, ih]
    by_cases h : idx = idx2 ∧ idx < g.length
    · rw [if_pos h, if_pos h, if_pos h, List.append_assoc]
      congr 1
      rw [List.replicate_succ']
    · rw [if_neg h, if_neg h, if_neg h]

theorem regionCells_loop_length (m si cols : Nat) : ∀ (g : UIGrid),
    (forLoop m (fun i h => appendEmptyCells h (i + si * cols) cols) g).length
      = g.length := by
  induction m with
  | zero => intro g; rfl
  | succ m ih =>
    intro g
    show (appendEmptyCells _ _ _).length = g.length
    rw [appendEmptyCells_length, ih]

theorem regionCells_loop_getD (m si cols : Nat) : ∀ (g : UIGrid) (idx : Nat),
    (forLoop m (fun i h => appendEmptyCells h (i + si * cols) cols) g).getD idx []
      = if si * cols ≤ idx ∧ idx < si * cols + m ∧ idx < g.length
        then g.getD idx [] ++ List.replicate cols ([] : QStr)
        else g.getD idx [] := by
  induction m with
  | zero =>
    intro g idx
    rw [if_neg (by omega)]
    rfl
  | succ m ih =>
    intro g idx
    show (appendEmptyCells _ (m + si * cols) cols).getD idx [] = _
    rw [appendEmptyCells_getD, regionCells_loop_length, ih]
    by_cases hlast : m + si * cols = idx ∧ m + si * cols < g.length
    · rw [if_pos hlast, if_neg (by omega), if_pos (by omega)]
    · by_cases hin : si * cols ≤ idx ∧ idx < si * cols + m ∧ idx < g.length
      · rw [if_neg hlast, if_pos hin, if_pos (by omega)]
      · rw [if_neg hlast, if_neg hin, if_neg (by omega)]

theorem regionCells_length (g : UIGrid) (si cols : Nat) :
    (regionCells g si cols).length = g.length :=
  regionCells_loop_length cols si cols g

theorem regionCells_getD (g : UIGrid) (si cols idx : Nat) :
    (regionCells g si cols).getD idx []
      = if si * cols ≤ idx ∧ idx < si * cols + cols ∧ idx < g.length
        then g.getD idx [] ++ List.replicate cols ([] : QStr)
        else g.getD idx [] :=
  regionCells_loop_getD cols si cols g idx

theorem regionBand_loop_length (m si cols : Nat) : ∀ (g : UIGrid),
    (forLoop m (fun _ h => regionCells h si cols) g).length = g.length := by
  induction m with
  | zero => intro g; rfl
  | succ m ih =>
    intro g
    show (regionCells _ si cols).length = g.length
    rw [regionCells_length, ih]

theorem regionBand_loop_getD (m si r cols : Nat) : ∀ (g : UIGrid) (idx : Nat),
    (forLoop m (fun _ h => regionCells h si cols) g).getD idx []
      = if si * cols ≤ idx ∧ idx < si * cols + cols ∧ idx < g.length
        then g.getD idx [] ++ List.replicate (m * cols) ([] : QStr)
        else g.getD idx [] := by
  induction m with
  | zero =>
    intro g idx
    show List.getD g idx [] = _
    by_cases h : si * cols ≤ idx ∧ idx < si * cols + cols ∧ idx < g.length
    · rw [if_pos h]; simp
    · rw [if_neg h]
  | succ m ih =>
    intro g idx
    simp only [forLoop]
    rw [regionCells_getD, regionBand_loop_length m si cols g, ih]
    by_cases h : si * cols ≤ idx ∧ idx < si * cols + cols ∧ idx < g.length
    · rw [if_pos h, if_pos h, if_pos h, List.append_assoc, ← List.replicate_add]
      congr 2
      ring
    · rw [if_neg h, if_neg h, if_neg h]

theorem regionBand_length (g : UIGrid) (si r cols : Nat) :
    (regionBand g si r cols).length = g.length :=
  regionBand_loop_length r si cols g

theorem regionBand_getD (g : UIGrid) (si r cols idx : Nat) :
    (regionBand g si r cols).getD idx []
      = if si * cols ≤ idx ∧ idx < si * cols + cols ∧ idx < g.length
        then g.getD idx [] ++ List.replicate (r * cols) ([] : QStr)
        else g.getD idx [] :=
  regionBand_loop_getD r si r cols g idx

theorem buildRows_loop_length (m r cols size : Nat) :
    (forLoop m (fun si h => regionBand h si r cols) (List.replicate size [])).length
      = size := by
  induction m with
  | zero => simp [forLoop]
  | succ m ih =>
    show (regionBand _ m r cols).length = size
    rw [regionBand_length, ih]

theorem buildRows_loop_getD (m r cols size : Nat) (hc : 0 < cols) (idx : Nat) :
    (forLoop m (fun si h => regionBand h si r cols) (List.replicate size [])).getD idx []
      = if idx < m * cols ∧ idx < size
        then List.replicate (r * cols) ([] : QStr)
        else [] := by
  induction m with
  | zero =>
    rw [if_neg (by omega)]
    exact getD_replicate_nil size idx
  | succ m ih =>
    show (regionBand _ m r cols).getD idx [] = _
    rw [regionBand_getD, buildRows_loop_length, ih]
    have hexp : (m + 1) * cols = m * cols + cols := by ring
    by_cases hband : m * cols ≤ idx ∧ idx < m * cols + cols ∧ idx < size
    · rw [if_pos hband, if_neg (by omega), if_pos (by omega)]
      rfl
    · by_cases hdone : idx < m * cols ∧ idx < size
      · rw [if_neg hband, if_pos hdone, if_pos (by omega)]
      · rw [if_neg hband, if_neg hdone, if_neg (by omega)]

theorem buildRows_eq_empty (r cols : Nat) (hc : 0 < cols) :
    buildRows (r * cols) r cols = emptyUIGrid (r * cols) := by
  unfold buildRows emptyUIGrid
  apply List.ext_getElem
  · rw [buildRows_loop_length]
    simp
  · intro idx h1 h2
    rw [buildRows_loop_length] at h1
    have hgd := buildRows_loop_getD r r cols (r * cols) hc idx
    rw [if_pos ⟨h1, h1⟩] at hgd
    rw [List.getD_eq_getElem?_getD, List.getElem?_eq_getElem (by rw [buildRows_loop_length]; exact h1)] at hgd
    simp only [Option.getD_some] at hgd
    rw [hgd, List.getElem_replicate]

/-- Characterization of generateGrid: failure exactly on sizes below 4 or
with a non-integer square root, success producing the empty grid. -/
theorem generateGrid_eq (size : Nat) :
    generateGrid size
      = if size < 4 ∨ intSqrt size * intSqrt size ≠ size then none
        else some (emptyUIGrid size) := by
  unfold generateGrid
  by_cases h4 : size < 4
  · rw [if_pos h4, if_pos (Or.inl h4)]
  · rw [if_neg h4]
    by_cases hsq : intSqrt size * intSqrt size ≠ size
    · rw [if_pos hsq, if_pos (Or.inr hsq)]
    · rw [if_neg hsq, if_neg (by tauto)]
      push_neg at hsq
      have hr : 0 < intSqrt size := by
        by_contra h0
        push_neg at h0
        have hz : intSqrt size = 0 := by omega
        rw [hz] at hsq
        omega
      have hdiv : size / intSqrt size = intSqrt size := by
        nth_rewrite 1 [← hsq]
        exact Nat.mul_div_left _ hr
      rw [hdiv]
      have hb := buildRows_eq_empty (intSqrt size) (intSqrt size) hr
      rw [hsq] at hb
      rw [hb]

-- Spec-modelled DLX solver.  The DLX engine (dlx.h / dlx.cpp of the
-- repository) is not part of the sources here; only its caller
-- MainWindow.solveGrid is.  The candidate construction, the exact-cover
-- solution notion and the solution decoding are therefore modelled from
-- the specification (sections 3, 4.2 and 4.3.4).

/-- Modelled from the spec: a Grid in the spec data model, cells in
0..N with 0 denoting empty (the DLX sources holding the real type are
not under src). -/
abbrev SGrid := List (List Nat)

/-- Modelled from the spec: candidate ids emitted for one cell by the
cover-matrix builder of section 4.2 (dlx.cpp is not under src): an empty
cell emits one candidate per digit 1..N, a given collapses to the single
candidate with its value; id = (r * N + c) * N + (d - 1). -/
def specCandidatesCell (N r c v : Nat) : List Nat :=
  if v = 0 then (List.range N).map (fun k => (r * N + c) * N + k)
  else [(r * N + c) * N + (v - 1)]

/-- Modelled from the spec: the candidate list of a grid, rows outer,
columns middle, digits inner (section 4.2; dlx.cpp is not under src). -/
def specCandidates (N : Nat) (G : SGrid) : List Nat :=
  (List.range N).flatMap (fun r => (List.range N).flatMap (fun c =>
    specCandidatesCell N r c ((G.getD r []).getD c 0)))

/-- Row decoded from a candidate id. -/
def candRow (N id : Nat) : Nat := id / (N * N)

/-- Column decoded from a candidate id. -/
def candCol (N id : Nat) : Nat := (id / N) % N

/-- Digit decoded from a candidate id. -/
def candDigit (N id : Nat) : Nat := id % N + 1

/-- Modelled from the spec: the four constraint columns a candidate
touches (section 3; dlx.cpp is not under src): cell, row-digit,
col-digit and box-digit, with offsets 0, N², 2N² and 3N². -/
def candColumns (N id : Nat) : List Nat :=
  [candRow N id * N + candCol N id,
   N * N + candRow N id * N + (candDigit N id - 1),
   2 * (N * N) + candCol N id * N + (candDigit N id - 1),
   3 * (N * N) + (candRow N id / intSqrt N * intSqrt N + candCol N id / intSqrt N) * N
     + (candDigit N id - 1)]

/-- Modelled from the spec: sol is an exact cover of the 4N² constraint
columns by rows of the candidate list (sections 3 and 4.3; dlx.cpp is
not under src): every chosen row is a candidate and every column is
touched by exactly one chosen row. -/
def isExactCover (N : Nat) (cands sol : List Nat) : Bool :=
  sol.all (fun id => cands.contains id) &&
  (List.range (4 * (N * N))).all (fun col =>
    sol.countP (fun id => (candColumns N id).contains col) == 1)

/-- The all-empty spec grid. -/
def emptySGrid (N : Nat) : SGrid := List.replicate N (List.replicate N 0)

/-- Write one decoded candidate into a spec grid. -/
def writeCand (N : Nat) (G : SGrid) (id : Nat) : SGrid :=
  G.set (candRow N id) ((G.getD (candRow N id) []).set (candCol N id) (candDigit N id))

/-- Modelled from the spec: decoding the chosen candidate ids into a
fresh grid (section 4.3.4; dlx.cpp is not under src). -/
def applySolution (N : Nat) (sol : List Nat) : SGrid :=
  sol.foldl (writeCand N) (emptySGrid N)

/-- Spec grid of side N with every cell value at most N. -/
def sGridValid (N : Nat) (G : SGrid) : Bool :=
  G.length == N && G.all (fun row => row.length == N && row.all (fun v => v ≤ N))

/-- Cell of a spec grid. -/
def sCell (G : SGrid) (r c : Nat) : Nat := (G.getD r []).getD c 0

-- Lemmas for given preservation over the spec-modelled solver.

theorem sGridValid_parts {N : Nat} {G : SGrid} (h : sGridValid N G = true) :
    G.length = N ∧ (∀ row ∈ G, row.length = N) ∧ (∀ row ∈ G, ∀ v ∈ row, v ≤ N) := by
  unfold sGridValid at h
  simp only [Bool.and_eq_true, beq_iff_eq, List.all_eq_true,
    decide_eq_true_eq] at h
  exact ⟨h.1, fun row hrow => (h.2 row hrow).1, fun row hrow => by
    have := (h.2 row hrow).2
    simpa using this⟩

theorem rowcol_unique {N r c r2 c2 : Nat} (hN : 0 < N) (hc : c < N)
    (hc2 : c2 < N) (he : r * N + c = r2 * N + c2) : r = r2 ∧ c = c2 := by
  have h1 := flatPos_div r c N hN hc
  have h2 := flatPos_div r2 c2 N hN hc2
  rw [he] at h1
  constructor <;> omega

theorem flat_lt_sq {N r c : Nat} (hr : r < N) (hc : c < N) :
    r * N + c < N * N := by
  have := Nat.mul_le_mul_right N (show r + 1 ≤ N by omega)
  have h2 : (r + 1) * N = r * N + N := by ring
  omega

theorem cand_decode (N r c k : Nat) (hN : 0 < N) (hc : c < N) (hk : k < N) :
    candRow N ((r * N + c) * N + k) = r ∧ candCol N ((r * N + c) * N + k) = c ∧
    candDigit N ((r * N + c) * N + k) = k + 1 := by
  have hNN : 0 < N * N := by positivity
  have hsmall : c * N + k < N * N := by
    have := Nat.mul_le_mul_right N (show c + 1 ≤ N by omega)
    have h2 : (c + 1) * N = c * N + N := by ring
    omega
  refine ⟨?_, ?_, ?_⟩
  · unfold candRow
    have h2 : (r * N + c) * N + k = N * N * r + (c * N + k) := by ring
    rw [h2, Nat.mul_add_div hNN, Nat.div_eq_of_lt hsmall, Nat.add_zero]
  · unfold candCol
    have h2 : (r * N + c) * N + k = N * (r * N + c) + k := by ring
    rw [h2, Nat.mul_add_div hN, Nat.div_eq_of_lt hk, Nat.add_zero]
    have h3 : r * N + c = N * r + c := by ring
    rw [h3, Nat.mul_add_mod, Nat.mod_eq_of_lt hc]
  · unfold candDigit
    have h2 : (r * N + c) * N + k = N * (r * N + c) + k := by ring
    rw [h2, Nat.mul_add_mod, Nat.mod_eq_of_lt hk]

/-- Shape of a candidate id of the builder: its originating cell and the
emitted digit offset. -/
theorem mem_specCandidates {N : Nat} {G : SGrid} {id : Nat}
    (h : id ∈ specCandidates N G) :
    ∃ r c, r < N ∧ c < N ∧
      ((sCell G r c = 0 ∧ ∃ k, k < N ∧ id = (r * N + c) * N + k) ∨
       (sCell G r c ≠ 0 ∧ id = (r * N + c) * N + (sCell G r c - 1))) := by
  unfold specCandidates at h
  rw [List.mem_flatMap] at h
  rcases h with ⟨r, hr, h⟩
  rw [List.mem_flatMap] at h
  rcases h with ⟨c, hc, h⟩
  rw [List.mem_range] at hr hc
  refine ⟨r, c, hr, hc, ?_⟩
  unfold specCandidatesCell at h
  by_cases hv : (G.getD r []).getD c 0 = 0
  · rw [if_pos hv] at h
    rw [List.mem_map] at h
    rcases h with ⟨k, hk, hid⟩
    rw [List.mem_range] at hk
    exact Or.inl ⟨hv, k, hk, hid.symm⟩
  · rw [if_neg hv] at h
    rw [List.mem_singleton] at h
    exact Or.inr ⟨hv, h⟩

/-- A candidate touches the cell column of (r, c) exactly when it
originates from cell (r, c). -/
theorem touches_cellCol_iff {N : Nat} {G : SGrid} {id : Nat} (hN : 0 < N)
    (hval : sGridValid N G = true) (hid : id ∈ specCandidates N G)
    {r c : Nat} (hr : r < N) (hc : c < N) :
    (candColumns N id).contains (r * N + c) = true
      ↔ candRow N id = r ∧ candCol N id = c := by
  rcases sGridValid_parts hval with ⟨hlen, hrows, hvals⟩
  rcases mem_specCandidates hid with ⟨r2, c2, hr2, hc2, hcase⟩
  have hvle : sCell G r2 c2 ≤ N := by
    by_cases hin : r2 < G.length
    · have hrl : (G.getD r2 []).length = N := hrows _ (getD_mem G r2 [] hin)
      by_cases hcin : c2 < (G.getD r2 []).length
      · exact hvals _ (getD_mem G r2 [] hin) _ (getD_mem _ c2 0 hcin)
      · unfold sCell
        rw [List.getD_eq_getElem?_getD (G.getD r2 []), List.getElem?_eq_none (by omega)]
        simp
    · unfold sCell
      rw [List.getD_eq_getElem?_getD G, List.getElem?_eq_none (by omega)]
      simp
  have hdec : candRow N id = r2 ∧ candCol N id = c2 ∧ candDigit N id ≤ N := by
    rcases hcase with ⟨_, k, hk, hid2⟩ | ⟨hnz, hid2⟩
    · subst hid2
      rcases cand_decode N r2 c2 k hN hc2 hk with ⟨h1, h2, h3⟩
      exact ⟨h1, h2, by omega⟩
    · subst hid2
      have hk : sCell G r2 c2 - 1 < N := by omega
      rcases cand_decode N r2 c2 _ hN hc2 hk with ⟨h1, h2, h3⟩
      refine ⟨h1, h2, ?_⟩
      rw [h3]
      omega
  rcases hdec with ⟨hdr, hdc, hdd⟩
  have hflat2 : r2 * N + c2 < N * N := flat_lt_sq hr2 hc2
  have hflat : r * N + c < N * N := flat_lt_sq hr hc
  unfold candColumns
  rw [List.contains_eq_any_beq]
  simp only [List.any_cons, List.any_nil, Bool.or_eq_true, beq_iff_eq]
  constructor
  · rintro (h | h | h | h | h)
    · rw [hdr, hdc] at h
      have := rowcol_unique hN hc hc2 h
      omega
    · have hbig : N * N ≤ r * N + c := by
        rw [h]
        exact le_trans (Nat.le_add_right _ _) (Nat.le_add_right _ _)
      omega
    · have hbig : 2 * (N * N) ≤ r * N + c := by
        rw [h]
        exact le_trans (Nat.le_add_right _ _) (Nat.le_add_right _ _)
      omega
    · have hbig : 3 * (N * N) ≤ r * N + c := by
        rw [h]
        exact le_trans (Nat.le_add_right _ _) (Nat.le_add_right _ _)
      omega
    · simp at h
  · rintro ⟨h1, h2⟩
    exact Or.inl (by rw [h1, h2])

theorem sCell_le_of_valid {N : Nat} {G : SGrid} (hval : sGridValid N G = true)
    (r c : Nat) : sCell G r c ≤ N := by
  rcases sGridValid_parts hval with ⟨hlen, hrows, hvals⟩
  by_cases hin : r < G.length
  · by_cases hcin : c < (G.getD r []).length
    · exact hvals _ (getD_mem G r [] hin) _ (getD_mem _ c 0 hcin)
    · unfold sCell
      rw [List.getD_eq_getElem?_getD (G.getD r []), List.getElem?_eq_none (by omega)]
      simp
  · unfold sCell
    rw [List.getD_eq_getElem?_getD G, List.getElem?_eq_none (by omega)]
    simp

theorem sCell_writeCand_other {N : Nat} (G : SGrid) (id r c : Nat)
    (h : candRow N id ≠ r ∨ candCol N id ≠ c) :
    sCell (writeCand N G id) r c = sCell G r c := by
  unfold sCell writeCand
  rw [getD_set]
  by_cases hi : candRow N id = r
  · have hj : candCol N id ≠ c := by tauto
    by_cases hlen : candRow N id < G.length
    · rw [if_pos ⟨hi, hlen⟩, getD_set, if_neg (by tauto), hi]
    · rw [if_neg (by tauto)]
  · rw [if_neg (by tauto)]

theorem sCell_writeCand_same {N : Nat} (G : SGrid) (id : Nat)
    (hi : candRow N id < G.length)
    (hj : candCol N id < (G.getD (candRow N id) []).length) :
    sCell (writeCand N G id) (candRow N id) (candCol N id) = candDigit N id := by
  unfold sCell writeCand
  rw [getD_set, if_pos ⟨rfl, hi⟩, getD_set, if_pos ⟨rfl, hj⟩]

theorem writeCand_length {N : Nat} (G : SGrid) (id : Nat) :
    (writeCand N G id).length = G.length := List.length_set G _ _

theorem writeCand_rowlen {N : Nat} (G : SGrid) (id r : Nat) :
    ((writeCand N G id).getD r []).length = (G.getD r []).length := by
  unfold writeCand
  rw [getD_set]
  by_cases h : candRow N id = r ∧ candRow N id < G.length
  · rw [if_pos h, List.length_set, h.1]
  · rw [if_neg h]

theorem fold_no_write {N r c : Nat} : ∀ (sol : List Nat) (G : SGrid),
    sol.countP (fun id => decide (candRow N id = r ∧ candCol N id = c)) = 0 →
    sCell (sol.foldl (writeCand N) G) r c = sCell G r c := by
  intro sol
  induction sol with
  | nil => intro G _; rfl
  | cons id rest ih =>
    intro G h
    rw [List.countP_cons] at h
    by_cases hp : decide (candRow N id = r ∧ candCol N id = c) = true
    · rw [if_pos hp] at h
      omega
    · rw [if_neg hp] at h
      have hne : candRow N id ≠ r ∨ candCol N id ≠ c := by
        rcases Decidable.not_and_iff_or_not.mp (of_decide_eq_false (Bool.of_not_eq_true hp)) with h2 | h2
        · exact Or.inl h2
        · exact Or.inr h2
      rw [List.foldl_cons, ih _ (by omega)]
      exact sCell_writeCand_other G id r c hne

theorem fold_unique_write {N r c d : Nat} : ∀ (sol : List Nat) (G : SGrid),
    r < G.length → c < (G.getD r []).length →
    sol.countP (fun id => decide (candRow N id = r ∧ candCol N id = c)) = 1 →
    (∀ id ∈ sol, candRow N id = r → candCol N id = c → candDigit N id = d) →
    sCell (sol.foldl (writeCand N) G) r c = d := by
  intro sol
  induction sol with
  | nil => intro G _ _ hcount _; simp at hcount
  | cons id rest ih =>
    intro G hr hc hcount hd
    rw [List.countP_cons] at hcount
    rw [List.foldl_cons]
    by_cases hp : decide (candRow N id = r ∧ candCol N id = c) = true
    · rcases of_decide_eq_true hp with ⟨hw1, hw2⟩
      rw [if_pos hp] at hcount
      rw [fold_no_write rest _ (by omega)]
      rw [← hw1, ← hw2]
      rw [sCell_writeCand_same G id (by rw [hw1]; exact hr) (by rw [hw1, hw2]; exact hc)]
      exact hd id (List.mem_cons_self id rest) hw1 hw2
    · have hne : candRow N id ≠ r ∨ candCol N id ≠ c := by
        rcases Decidable.not_and_iff_or_not.mp (of_decide_eq_false (Bool.of_not_eq_true hp)) with h2 | h2
        · exact Or.inl h2
        · exact Or.inr h2
      rw [if_neg hp] at hcount
      apply ih (writeCand N G id)
      · rw [writeCand_length]; exact hr
      · rw [writeCand_rowlen]; exact hc
      · omega
      · exact fun id2 h2 => hd id2 (List.mem_cons_of_mem id h2)

theorem emptySGrid_length (N : Nat) : (emptySGrid N).length = N := by
  simp [emptySGrid]

theorem emptySGrid_rowlen (N r : Nat) (hr : r < N) :
    ((emptySGrid N).getD r []).length = N := by
  unfold emptySGrid
  rw [List.getD_eq_getElem?_getD, List.getElem?_eq_getElem (by simpa using hr),
    List.getElem_replicate]
  simp

/-- Given preservation over the spec-modelled solver: any exact cover of
the builder candidates, decoded into a fresh grid, reproduces every
nonzero given of the input grid. -/
theorem spec_given_preservation (N : Nat) (G : SGrid) (sol : List Nat)
    (r c : Nat) (hval : sGridValid N G = true)
    (hec : isExactCover N (specCandidates N G) sol = true)
    (hr : r < N) (hc : c < N) (hgiven : sCell G r c ≠ 0) :
    sCell (applySolution N sol) r c = sCell G r c := by
  have hN : 0 < N := by omega
  unfold isExactCover at hec
  simp only [Bool.and_eq_true, List.all_eq_true, List.mem_range,
    beq_iff_eq] at hec
  have hmem : ∀ id ∈ sol, id ∈ specCandidates N G := by
    intro id hid
    exact List.elem_iff.mp (hec.1 id hid)
  have hcol : r * N + c < 4 * (N * N) := by
    have := flat_lt_sq hr hc
    omega
  have h1 : sol.countP (fun id => (candColumns N id).contains (r * N + c)) = 1 :=
    hec.2 _ hcol
  have h2 : sol.countP (fun id => decide (candRow N id = r ∧ candCol N id = c)) = 1 := by
    rw [← List.countP_congr (fun id hid => ?_), h1]
    rw [touches_cellCol_iff hN hval (hmem id hid) hr hc]
    rw [decide_eq_true_iff]
  have hdigit : ∀ id ∈ sol, candRow N id = r → candCol N id = c →
      candDigit N id = sCell G r c := by
    intro id hid hdr hdc
    rcases mem_specCandidates (hmem id hid) with ⟨r2, c2, hr2, hc2, hcase⟩
    rcases hcase with ⟨hz, k, hk, hid2⟩ | ⟨hnz, hid2⟩
    · subst hid2
      rcases cand_decode N r2 c2 k hN hc2 hk with ⟨e1, e2, _⟩
      rw [e1] at hdr
      rw [e2] at hdc
      subst hdr
      subst hdc
      exact absurd hz hgiven
    · subst hid2
      have hvle := sCell_le_of_valid hval r2 c2
      have hk : sCell G r2 c2 - 1 < N := by omega
      rcases cand_decode N r2 c2 _ hN hc2 hk with ⟨e1, e2, e3⟩
      rw [e1] at hdr
      rw [e2] at hdc
      subst hdr
      subst hdc
      rw [e3]
      omega
  unfold applySolution
  exact fold_unique_write sol (emptySGrid N)
    (by rw [emptySGrid_length]; exact hr)
    (by rw [emptySGrid_rowlen N r hr]; exact hc)
    h2 hdigit

/-- Modelled from the spec: the row, column and box uniqueness recheck
described for the test harness (section 4.5 and property 2 of section 8).
The harness code in runTest contains no such recheck; the predicate is
stated from the specification so the claimed behaviour can be compared
with the code. -/
def specValidSolution (N : Nat) (G : Grid) : Bool :=
  ((List.range N).all (fun r => (List.range N).all (fun k =>
    ((G.getD r []).count (((k + 1 : Nat) : Int))) == 1))) &&
  ((List.range N).all (fun c => (List.range N).all (fun k =>
    (((List.range N).map (fun r => (G.getD r []).getD c 0)).count
      (((k + 1 : Nat) : Int))) == 1))) &&
  ((List.range N).all (fun b => (List.range N).all (fun k =>
    (((List.range N).map (fun idx =>
      (G.getD (b / intSqrt N * intSqrt N + idx / intSqrt N) []).getD
        (b % intSqrt N * intSqrt N + idx % intSqrt N) 0)).count
      (((k + 1 : Nat) : Int))) == 1)))

theorem squareUI_empty (k : Nat) : squareUI (emptyUIGrid k) k = true := by
  unfold squareUI emptyUIGrid
  simp only [Bool.and_eq_true, beq_iff_eq, List.all_eq_true]
  refine ⟨by simp, fun row hrow => ?_⟩
  rw [List.eq_of_mem_replicate hrow]
  simp

-- Concrete grids used by the claim witnesses and counterexamples.

/-- Valid 4-by-4 grid with the diagonal 1, 2, 3, 4. -/
def gW4 : UIGrid :=
  [[['1'], [], [], []], [[], ['2'], [], []],
   [[], [], ['3'], []], [[], [], [], ['4']]]

/-- Valid 16-by-16 grid holding the single value 10. -/
def gBig10 : UIGrid := setCellText (emptyUIGrid 16) 0 0 ['1', '0']

/-- Valid 16-by-16 grid holding the single value 16. -/
def gBig16 : UIGrid := setCellText (emptyUIGrid 16) 0 0 ['1', '6']

/-- Spec grid for the C5 witness: single given 1 at the origin. -/
def sG5 : SGrid := [[1, 0, 0, 0], [0, 0, 0, 0], [0, 0, 0, 0], [0, 0, 0, 0]]

/-- Exact-cover solution for sG5: the candidate ids of a solved grid
extending the given. -/
def sol5 : List Nat := [0, 5, 10, 15, 18, 23, 24, 29, 33, 36, 43, 46, 51, 54, 57, 60]

-- C1.

/-- C1 (amended): round trip of serialization holds for every valid grid
all of whose cell values are at most 9 — in particular every grid of
side at most 9: parsing the serialized string into any grid of the same
side reproduces the grid, and empties render as dots. -/
theorem C1_roundtrip (n : Nat) (g h : UIGrid) (hn : 0 < n)
    (hv : validUIGrid n g = true) (hs : smallValues g = true)
    (hsq : squareUI h n = true) :
    stringGridToUIGrid h (UIGridToStringGrid g) = some g ∧
    UIGridToStringGrid (emptyUIGrid n) = List.replicate (n * n) '.' :=
  ⟨roundtrip_small hn g h hv hs hsq, serialize_emptyUIGrid n⟩

set_option maxRecDepth 100000 in
/-- C1 witness: the round trip evaluated on a concrete 4-by-4 grid. -/
theorem C1_witness :
    (0 < 4 ∧ validUIGrid 4 gW4 = true ∧ smallValues gW4 = true ∧
     squareUI (emptyUIGrid 4) 4 = true) ∧
    stringGridToUIGrid (emptyUIGrid 4) (UIGridToStringGrid gW4) = some gW4 :=
  ⟨by decide,
   (C1_roundtrip 4 gW4 (emptyUIGrid 4) (by decide) (by decide) (by decide) (by decide)).1⟩

set_option maxRecDepth 100000 in
/-- C1 counterexample: a valid 16-by-16 grid holding the value 10 does
not survive the round trip — its serialization is 257 characters, and
loading that string overruns the grid. -/
theorem C1_counterexample :
    validUIGrid 16 gBig10 = true ∧
    stringGridToUIGrid (emptyUIGrid 16) (UIGridToStringGrid gBig10) ≠ some gBig10 :=
  ⟨by decide, by decide⟩

-- C3.

/-- C3 (amended): the serializer emits variable-width decimal digits
without separators (one character below 10, two for 10..16), so a valid
16-by-16 grid serializes to 256 plus the number of cells holding 10 or
more characters; the parser consumes one character per cell, so whenever
some cell holds 10 or more the re-parse of the serialized string fails
by overrunning the grid instead of recovering the cell values. -/
theorem C3_serializer (g h : UIGrid) (hv : validUIGrid 16 g = true)
    (hsq : squareUI h 16 = true) :
    (UIGridToStringGrid g).length = 16 * 16 + countBigCells g ∧
    (0 < countBigCells g →
      stringGridToUIGrid h (UIGridToStringGrid g) = none) := by
  have hlen := serialize_length (by omega) g hv
  refine ⟨hlen, fun hbig => ?_⟩
  exact stringGridToUIGrid_none (by omega) h _ hsq (by omega)

set_option maxRecDepth 100000 in
/-- C3 witness: the serialized length and the failing re-parse evaluated
on a concrete 16-by-16 grid holding the value 16. -/
theorem C3_witness :
    validUIGrid 16 gBig16 = true ∧ squareUI (emptyUIGrid 16) 16 = true ∧
    (UIGridToStringGrid gBig16).length = 16 * 16 + countBigCells gBig16 ∧
    stringGridToUIGrid (emptyUIGrid 16) (UIGridToStringGrid gBig16) = none :=
  ⟨by decide, by decide,
   (C3_serializer gBig16 (emptyUIGrid 16) (by decide) (by decide)).1,
   (C3_serializer gBig16 (emptyUIGrid 16) (by decide) (by decide)).2 (by decide)⟩

set_option maxRecDepth 100000 in
/-- C3 counterexample: serializing then parsing a valid 16-by-16 grid
holding the value 16 does not recover the grid. -/
theorem C3_counterexample :
    validUIGrid 16 gBig16 = true ∧
    stringGridToUIGrid (emptyUIGrid 16) (UIGridToStringGrid gBig16) ≠ some gBig16 :=
  ⟨by decide, by decide⟩

-- C5.

/-- C5: given preservation — for every valid input grid and every
exact-cover solution of the builder candidate list, the decoded solution
grid keeps every nonzero given of the input grid (the DLX engine is
modelled from the spec; its sources are not part of src). -/
theorem C5_given_preservation (N : Nat) (G : SGrid) (sol : List Nat)
    (r c : Nat) (hval : sGridValid N G = true)
    (hec : isExactCover N (specCandidates N G) sol = true)
    (hr : r < N) (hc : c < N) (hgiven : sCell G r c ≠ 0) :
    sCell (applySolution N sol) r c = sCell G r c :=
  spec_given_preservation N G sol r c hval hec hr hc hgiven

set_option maxRecDepth 100000 in
/-- C5 witness: a concrete 4-by-4 grid with one given and a concrete
exact cover of its candidates. -/
theorem C5_witness :
    sGridValid 4 sG5 = true ∧
    isExactCover 4 (specCandidates 4 sG5) sol5 = true ∧
    sCell (applySolution 4 sol5) 0 0 = sCell sG5 0 0 :=
  ⟨by decide, by decide,
   C5_given_preservation 4 sG5 sol5 0 0 (by decide) (by decide)
     (by decide) (by decide) (by decide)⟩

-- C6.

/-- C6: generateGrid fails exactly when the requested size is below 4 or
its square root is not an integer, and otherwise produces the empty
size-by-size grid. -/
theorem C6_generateGrid (size : Nat) :
    (generateGrid size
      = if size < 4 ∨ intSqrt size * intSqrt size ≠ size then none
        else some (emptyUIGrid size)) ∧
    ((∃ r, r * r = size) ↔ intSqrt size * intSqrt size = size) :=
  ⟨generateGrid_eq size, by rw [intSqrt_eq_sqrt]; exact Nat.exists_mul_self size⟩

-- C7.

/-- C7 (amended): each cell of the primitive grid read from a valid UI
grid lies in -1 or 1..N, and -1 — not 0 — is what denotes an empty
cell. -/
theorem C7_cell_domain (n : Nat) (g : UIGrid) (i j : Nat)
    (hv : validUIGrid n g = true) (hi : i < n) (hj : j < n) :
    (((UIGridToGrid g).getD i []).getD j 0 = -1 ∨
     (1 ≤ ((UIGridToGrid g).getD i []).getD j 0 ∧
      ((UIGridToGrid g).getD i []).getD j 0 ≤ (n : Int))) ∧
    (((UIGridToGrid g).getD i []).getD j 0 = -1 ↔ getCell g i j = []) := by
  have hsq := validUIGrid_square hv
  have hlen := squareUI_length hsq
  have hrow := squareUI_rowlen hsq i hi
  have hval : ((UIGridToGrid g).getD i []).getD j 0 = cellValue (getCell g i j) := by
    unfold UIGridToGrid
    rw [getD_map (List.map cellValue) g i [] [] (by omega)]
    rw [getD_map cellValue _ j 0 [] (by omega)]
    rfl
  rw [hval]
  rcases cellValue_of_valid (validCellText_getCell hv hi hj) with ⟨ht, hcv⟩ | ⟨h1, h2, hne⟩
  · rw [hcv, ht]
    exact ⟨Or.inl rfl, by simp⟩
  · refine ⟨Or.inr ⟨h1, h2⟩, ?_⟩
    constructor
    · intro habs; omega
    · intro habs; exact absurd habs hne

/-- C7 witness: the empty 4-by-4 UI grid evaluated at the origin. -/
theorem C7_witness :
    (((UIGridToGrid (emptyUIGrid 4)).getD 0 []).getD 0 0 = -1 ∨
     (1 ≤ ((UIGridToGrid (emptyUIGrid 4)).getD 0 []).getD 0 0 ∧
      ((UIGridToGrid (emptyUIGrid 4)).getD 0 []).getD 0 0 ≤ (4 : Int))) ∧
    (((UIGridToGrid (emptyUIGrid 4)).getD 0 []).getD 0 0 = -1 ↔
     getCell (emptyUIGrid 4) 0 0 = []) :=
  C7_cell_domain 4 (emptyUIGrid 4) 0 0 (by decide) (by decide) (by decide)

/-- C7 counterexample: the Grid built from an all-empty UI grid holds -1,
which is neither 0 nor in 1..N, and -1 — not 0 — marks the empty cell. -/
theorem C7_counterexample :
    ((UIGridToGrid (emptyUIGrid 4)).getD 0 []).getD 0 0 = -1 ∧
    ¬(((UIGridToGrid (emptyUIGrid 4)).getD 0 []).getD 0 0 = 0 ∨
      (1 ≤ ((UIGridToGrid (emptyUIGrid 4)).getD 0 []).getD 0 0 ∧
       ((UIGridToGrid (emptyUIGrid 4)).getD 0 []).getD 0 0 ≤ 4)) := by
  decide

-- C8.

/-- C8 (amended): the solve facade stores the measured duration into the
bench out-parameter only when the solver succeeded; on an unsolvable
outcome the bench variable keeps its prior value. -/
theorem C8_bench (g : UIGrid) (bench : Rat) (o : DLXOutcome)
    (s : Bool) (g2 : UIGrid) (b2 : Rat)
    (h : solveGrid g bench o = some (s, g2, b2)) :
    s = o.solved ∧ b2 = (if o.solved then o.elapsed else bench) := by
  unfold solveGrid at h
  by_cases hs : o.solved
  · rw [if_pos hs] at h
    rcases hm : gridToUIGrid g o.solution with _ | g3
    · rw [hm] at h
      exact absurd h (by simp)
    · rw [hm] at h
      simp only [Option.some_inj, Prod.mk.injEq] at h
      rw [if_pos hs]
      exact ⟨by rw [hs, ← h.1], h.2.2.symm⟩
  · rw [if_neg hs] at h
    simp only [Option.some_inj, Prod.mk.injEq] at h
    rw [if_neg hs]
    have hsf : o.solved = false := Bool.not_eq_true o.solved |>.mp hs
    exact ⟨by rw [hsf, ← h.1], h.2.2.symm⟩

/-- C8 witness: a concrete solved outcome stores its elapsed time. -/
theorem C8_witness :
    true = (DLXOutcome.mk true [] 7).solved ∧
    (7 : Rat) = (if (DLXOutcome.mk true [] 7).solved
      then (DLXOutcome.mk true [] 7).elapsed else 0) :=
  C8_bench (emptyUIGrid 4) 0 ⟨true, [], 7⟩ true (emptyUIGrid 4) 7 (by decide)

/-- C8 counterexample: on an unsolvable outcome the elapsed time 5 is
not delivered — the returned bench value stays 0. -/
theorem C8_counterexample :
    solveGrid (emptyUIGrid 4) 0 ⟨false, [], 5⟩ = some (false, emptyUIGrid 4, 0) ∧
    (0 : Rat) ≠ 5 := by
  refine ⟨?_, by norm_num⟩
  decide

-- C9.

/-- C9: the string loader is total only for strings of at most N²
characters: a longer string drives the row index past the grid (the
grid.at access fails, modelled none), while a shorter string loads
without error and leaves the cells past its end unchanged. -/
theorem C9_loader (n : Nat) (g : UIGrid) (hn : 0 < n)
    (hsq : squareUI g n = true) :
    (∀ s : QStr, n * n < s.length → stringGridToUIGrid g s = none) ∧
    (∀ s : QStr, s.length ≤ n * n → ∃ g2,
      stringGridToUIGrid g s = some g2 ∧
      ∀ q, s.length ≤ q → q < n * n →
        getCell g2 (q / n) (q % n) = getCell g (q / n) (q % n)) := by
  constructor
  · intro s hs
    exact stringGridToUIGrid_none hn g s hsq hs
  · intro s hs
    refine ⟨writeFlat n g 0 s, stringGridToUIGrid_eq_writeFlat hn g s hsq hs, ?_⟩
    intro q hq1 _
    exact writeFlat_getCell_ge s g 0 q (by omega)

/-- C9 witness: loading 20 characters into the 4-by-4 grid fails. -/
theorem C9_witness :
    0 < 4 ∧ squareUI (emptyUIGrid 4) 4 = true ∧
    stringGridToUIGrid (emptyUIGrid 4) (List.replicate 20 '7') = none :=
  ⟨by decide, by decide,
   (C9_loader 4 (emptyUIGrid 4) (by decide) (by decide)).1 _ (by decide)⟩

-- C10.

/-- C10: when the solver reports unsolvable, the facade leaves the
displayed grid and the bench variable unchanged; the solution is written
into the grid only on a successful solve. -/
theorem C10_unsolvable_unchanged (g : UIGrid) (bench : Rat) (o : DLXOutcome)
    (h : o.solved = false) :
    solveGrid g bench o = some (false, g, bench) := by
  unfold solveGrid
  rw [if_neg (by rw [h]; exact Bool.false_ne_true)]

/-- C10 witness: a concrete unsolvable outcome leaves grid and bench
untouched. -/
theorem C10_witness :
    solveGrid (emptyUIGrid 9) 3 ⟨false, [[1]], 9⟩ = some (false, emptyUIGrid 9, 3) :=
  C10_unsolvable_unchanged (emptyUIGrid 9) 3 ⟨false, [[1]], 9⟩ rfl

-- C2.

/-- C2 (amended): the import slot validates only lengths, never
characters: with a confirmed text it succeeds exactly when the text is
nonempty and its length is either the current cell count or a perfect
square whose root is itself a valid grid size (at least 4 and a perfect
square, triggering a resize); characters that are not dots or digits in
1..N are loaded rather than rejected. -/
theorem C2_import_length_only (n : Nat) (g : UIGrid) (text : QStr)
    (hn : 0 < n) (hsq : squareUI g n = true) :
    (∃ g2, importGrid g true text = ImportResult.imported g2)
      ↔ text ≠ [] ∧ (text.length = n * n ∨
          (intSqrt text.length * intSqrt text.length = text.length ∧
           4 ≤ intSqrt text.length ∧
           intSqrt (intSqrt text.length) * intSqrt (intSqrt text.length)
             = intSqrt text.length)) := by
  have hglen : g.length = n := squareUI_length hsq
  by_cases hemp : text.isEmpty
  · have htxt : text = [] := by simpa using hemp
    subst htxt
    simp [importGrid]
  · have he : text.isEmpty = false := by simpa using hemp
    have htxt : text ≠ [] := by simpa using hemp
    by_cases hlen : text.length = g.length * g.length
    · have hload : stringGridToUIGrid g text = some (writeFlat n g 0 text) := by
        apply stringGridToUIGrid_eq_writeFlat hn g text hsq
        rw [hlen, hglen]
      have hval : importGrid g true text
          = ImportResult.imported (writeFlat n g 0 text) := by
        simp [importGrid, he, hlen, hload]
      refine iff_of_true ⟨_, hval⟩ ⟨htxt, Or.inl (by rw [hlen, hglen])⟩
    · by_cases hex : intSqrt text.length * intSqrt text.length = text.length
      · by_cases hgen : intSqrt text.length < 4 ∨
            intSqrt (intSqrt text.length) * intSqrt (intSqrt text.length)
              ≠ intSqrt text.length
        · have hnone : generateGrid (intSqrt text.length) = none := by
            rw [generateGrid_eq]
            exact if_pos hgen
          have hval : importGrid g true text = ImportResult.invalidSize := by
            simp [importGrid, he, hlen, hex, hnone]
          apply iff_of_false
          · rintro ⟨g2, hcon⟩
            rw [hval] at hcon
            exact ImportResult.noConfusion hcon
          · rintro ⟨-, h1 | ⟨h2a, h2b, h2c⟩⟩
            · exact hlen (by rw [h1, hglen])
            · rcases hgen with hg1 | hg2
              · omega
              · exact hg2 h2c
        · push_neg at hgen
          have hsome : generateGrid (intSqrt text.length)
              = some (emptyUIGrid (intSqrt text.length)) := by
            rw [generateGrid_eq]
            rw [if_neg (by push_neg; exact hgen)]
          have hload2 : stringGridToUIGrid (emptyUIGrid (intSqrt text.length)) text
              = some (writeFlat (intSqrt text.length) (emptyUIGrid (intSqrt text.length)) 0 text) := by
            apply stringGridToUIGrid_eq_writeFlat (by omega)
              (emptyUIGrid (intSqrt text.length)) text
              (squareUI_empty (intSqrt text.length))
            omega
          have hval : importGrid g true text = ImportResult.imported
              (writeFlat (intSqrt text.length) (emptyUIGrid (intSqrt text.length)) 0 text) := by
            simp [importGrid, he, hlen, hex, hsome, hload2]
          exact iff_of_true ⟨_, hval⟩ ⟨htxt, Or.inr ⟨hex, hgen.1, hgen.2⟩⟩
      · have hval : importGrid g true text = ImportResult.invalidSize := by
          simp [importGrid, he, hlen, hex]
        apply iff_of_false
        · rintro ⟨g2, hcon⟩
          rw [hval] at hcon
          exact ImportResult.noConfusion hcon
        · rintro ⟨-, h1 | ⟨h2a, h2b, h2c⟩⟩
          · exact hlen (by rw [h1, hglen])
          · exact hex h2a

/-- C2 witness: a length-16 text imports into the 4-by-4 grid. -/
theorem C2_witness :
    ∃ g2, importGrid (emptyUIGrid 4) true (List.replicate 16 '1')
      = ImportResult.imported g2 :=
  (C2_import_length_only 4 (emptyUIGrid 4) (List.replicate 16 '1')
    (by decide) (by decide)).mpr ⟨by decide, Or.inl (by decide)⟩

/-- C2 counterexample: a text of 16 copies of the invalid character x —
neither a dot nor a digit — is imported without any error: every such
character silently loads as an empty cell. -/
theorem C2_counterexample :
    Char.isDigit 'x' = false ∧ 'x' ≠ '.' ∧
    importGrid (emptyUIGrid 4) true (List.replicate 16 'x')
      = ImportResult.imported (emptyUIGrid 4) := by
  decide

-- C4.

/-- C4 (amended): the harness performs no recheck for the sentinel any:
whenever the input loads and the solver reports success with a writable
solution grid, the case is classified Passed — whatever grid the solver
returned, valid or not, givens preserved or not. -/
theorem C4_no_recheck (g g1 g2 : UIGrid) (input : QStr) (o : DLXOutcome)
    (hload : stringGridToUIGrid g input = some g1)
    (hsolved : o.solved = true)
    (hwrite : gridToUIGrid g1 o.solution = some g2) :
    runTestClassify g input ("any".data) o = some TestOutcome.passed := by
  have h1 : solveGrid g1 0 o = some (true, g2, o.elapsed) := by
    unfold solveGrid
    rw [if_pos hsolved, hwrite]
  have hne : (("any".data : List Char) == "none".data) = false := by decide
  simp [runTestClassify, hload, h1, hne]

/-- C4 witness: a concrete run with expected any and a solver outcome
filling the grid with twos is classified Passed. -/
theorem C4_witness :
    runTestClassify (emptyUIGrid 4) (List.replicate 16 '.') ("any".data)
      ⟨true, List.replicate 4 (List.replicate 4 (2 : Int)), 0⟩
      = some TestOutcome.passed :=
  C4_no_recheck (emptyUIGrid 4) (emptyUIGrid 4)
    (List.replicate 4 (List.replicate 4 ['2'])) (List.replicate 16 '.')
    ⟨true, List.replicate 4 (List.replicate 4 (2 : Int)), 0⟩
    (by decide) rfl (by decide)

/-- C4 counterexample: the all-ones solver outcome violates row, column
and box uniqueness, yet the harness classifies the case Passed instead
of failing it — no recheck happens. -/
theorem C4_counterexample :
    runTestClassify (emptyUIGrid 4) (List.replicate 16 '.') ("any".data)
      ⟨true, List.replicate 4 (List.replicate 4 (1 : Int)), 1⟩
      = some TestOutcome.passed ∧
    specValidSolution 4 (List.replicate 4 (List.replicate 4 (1 : Int))) = false := by
  refine ⟨?_, by decide⟩
  decide
